import Mathlib

/-!
Verification of the kaizen entity store against its specification.

The development shallowly embeds the Python sources:
* `kaizen/schema/core.py`, `kaizen/schema/conflict_resolution.py`,
  `kaizen/schema/tips.py` — the data model (pydantic records);
* `kaizen/backend/filesystem.py` — the JSON-file backend, modelled as a pure
  store of namespace documents;
* `kaizen/backend/milvus.py` — the vector backend, modelled with an
  auto-increment id counter in place of the Milvus collection;
* `kaizen/llm/tips/clustering.py` — union-find clustering;
* `kaizen/llm/tips/tips.py` — trajectory parsing and tip generation;
* `kaizen/frontend/client/kaizen_client.py` — tip consolidation;
* `kaizen/sync/phoenix_sync.py` — the Phoenix sync worker.

External collaborators (the LLM gateway, the embedding model, Python's
`ast.literal_eval`) are passed in as parameters: the code under verification
only inspects their outputs.  Python's `json.dumps` / `json.loads` are given
a concrete executable model (`dumps` / `loads`) over a JSON value type.
Machine floats of the similarity computation are modelled by `ℚ`.
-/

namespace Kaizen

/-- JSON-like values: the Python values that flow through the store
(`str | int | bool | None | list | dict`).  Entity `content`, `metadata`
values and span attributes are all of this shape. -/
inductive Json where
  | null : Json
  | bool (b : Bool) : Json
  | num (n : Int) : Json
  | str (s : String) : Json
  | arr (items : List Json) : Json
  | obj (fields : List (String × Json)) : Json

/-- Python truthiness (`bool(v)`) for JSON-like values. -/
def pyTruthy : Json → Bool
  | .null => false
  | .bool b => b
  | .num n => n ≠ 0
  | .str s => s ≠ ""
  | .arr items => ¬ items.isEmpty
  | .obj fields => ¬ fields.isEmpty

/-- `d.get(k)` on a Python dict (JSON object); `none` when the key is absent
or the value is not a dict. -/
def dictGet (j : Json) (k : String) : Option Json :=
  match j with
  | .obj fields => fields.lookup k
  | _ => none

/-- The opening brace character, written via its code point. -/
def braceOpen : Char := Char.ofNat 123

/-- The closing brace character, written via its code point. -/
def braceClose : Char := Char.ofNat 125

/-- Decimal digit to character, as Python renders digits. -/
def digitCh (d : Nat) : Char :=
  if d = 0 then '0' else if d = 1 then '1' else if d = 2 then '2'
  else if d = 3 then '3' else if d = 4 then '4' else if d = 5 then '5'
  else if d = 6 then '6' else if d = 7 then '7' else if d = 8 then '8'
  else if d = 9 then '9' else '*'

/-- Character back to decimal digit (left inverse of `digitCh` below 10). -/
def chDigit (c : Char) : Nat :=
  if c = '0' then 0 else if c = '1' then 1 else if c = '2' then 2
  else if c = '3' then 3 else if c = '4' then 4 else if c = '5' then 5
  else if c = '6' then 6 else if c = '7' then 7 else if c = '8' then 8
  else if c = '9' then 9 else 10

/-- Little-endian decimal digits of `n`, by repeated division; any
`fuel ≥ n` suffices because `n / 10 < n` for positive `n`. -/
def natDigitsRev : Nat → Nat → List Nat
  | 0, _ => []
  | _ + 1, 0 => []
  | fuel + 1, n => n % 10 :: natDigitsRev fuel (n / 10)

theorem natDigitsRev_eq_digits : ∀ (fuel n : Nat), n ≤ fuel →
    natDigitsRev fuel n = Nat.digits 10 n := by
  intro fuel
  induction fuel with
  | zero =>
    intro n hn
    have : n = 0 := by omega
    subst this
    simp [natDigitsRev]
  | succ f ih =>
    intro n hn
    match n with
    | 0 => simp [natDigitsRev]
    | m + 1 =>
      have hdiv : (m + 1) / 10 ≤ f := by
        have := Nat.div_lt_self (Nat.succ_pos m) (by norm_num : 1 < 10)
        omega
      rw [natDigitsRev, ih ((m + 1) / 10) hdiv,
        Nat.digits_def' (by norm_num : 1 < 10) (Nat.succ_pos m)]
      omega

/-- Model of Python `str(n)` for a non-negative integer `n` (decimal digits,
most significant first).  Used for the filesystem backend's
`str(data.next_id)` and the vector backend's stringified auto-ids. -/
def pyNatStr (n : Nat) : String :=
  String.mk (if n = 0 then ['0'] else ((natDigitsRev n n).reverse.map digitCh))

/-- Decoder showing `pyNatStr` is injective. -/
def pyNatStrInv (s : String) : Nat :=
  Nat.ofDigits 10 ((s.data.map chDigit).reverse)

theorem chDigit_digitCh {d : Nat} (h : d < 10) : chDigit (digitCh d) = d := by
  interval_cases d <;> rfl

theorem pyNatStrInv_pyNatStr (n : Nat) : pyNatStrInv (pyNatStr n) = n := by
  unfold pyNatStr pyNatStrInv
  by_cases h : n = 0
  · subst h; rfl
  · rw [natDigitsRev_eq_digits n n (le_refl n)]
    simp only [h, if_false, String.data]
    rw [List.map_reverse, List.map_reverse, List.reverse_reverse, List.map_map]
    have h2 : (Nat.digits 10 n).map (chDigit ∘ digitCh) = Nat.digits 10 n := by
      conv_rhs => rw [← List.map_id (Nat.digits 10 n)]
      apply List.map_congr_left
      intro d hd
      have hlt : d < 10 := Nat.digits_lt_base (by norm_num) hd
      simpa using chDigit_digitCh hlt
    rw [h2, Nat.ofDigits_digits]

theorem pyNatStr_injective : Function.Injective pyNatStr := by
  intro a b h
  have := pyNatStrInv_pyNatStr a
  rw [h, pyNatStrInv_pyNatStr] at this
  exact this.symm

/-- Model of Python `str(n)` for integers. -/
def pyIntStr (n : Int) : String :=
  if n < 0 then "-" ++ pyNatStr n.natAbs else pyNatStr n.natAbs

/-- JSON string escaping as `json.dumps` performs it for the characters that
need it (the quote, the backslash and the common control characters). -/
def escapeCh (c : Char) : List Char :=
  if c = '"' then ['\\', '"']
  else if c = '\\' then ['\\', '\\']
  else if c = '\n' then ['\\', 'n']
  else if c = '\r' then ['\\', 'r']
  else if c = '\t' then ['\\', 't']
  else [c]

/-- Renders a JSON string literal with its quotes and escapes. -/
def renderStr (s : String) : List Char :=
  '"' :: (s.data.foldr (fun c acc => escapeCh c ++ acc) ['"'])

mutual

/-- Model of `json.dumps` (default separators `", "` and `": "`), producing
the character stream of the serialized value. -/
def render : Json → List Char
  | .null => "null".data
  | .bool b => if b then "true".data else "false".data
  | .num n => (pyIntStr n).data
  | .str s => renderStr s
  | .arr items => '[' :: renderItems items ++ [']']
  | .obj fields => braceOpen :: renderFields fields ++ [braceClose]

/-- Renders array elements, separated by `", "`. -/
def renderItems : List Json → List Char
  | [] => []
  | [v] => render v
  | v :: rest => render v ++ ',' :: ' ' :: renderItems rest

/-- Renders object members `"key": value`, separated by `", "`. -/
def renderFields : List (String × Json) → List Char
  | [] => []
  | [(k, v)] => renderStr k ++ ':' :: ' ' :: render v
  | (k, v) :: rest => renderStr k ++ ':' :: ' ' :: render v ++ ',' :: ' ' :: renderFields rest

end

/-- `json.dumps(v)` as a string. -/
def dumps (v : Json) : String := String.mk (render v)

/-- Whitespace as the JSON grammar skips it. -/
def isJsonWs (c : Char) : Bool :=
  c = ' ' ∨ c = '\n' ∨ c = '\t' ∨ c = '\r'

/-- Skip leading JSON whitespace. -/
def skipWs : List Char → List Char
  | [] => []
  | c :: cs => if isJsonWs c then skipWs cs else c :: cs

/-- Parse the body of a JSON string literal (after the opening quote),
returning the decoded characters and the input after the closing quote. -/
def parseStr : List Char → Option (List Char × List Char)
  | [] => none
  | '"' :: rest => some ([], rest)
  | '\\' :: e :: rest =>
    let dec : Option Char :=
      if e = '"' then some '"'
      else if e = '\\' then some '\\'
      else if e = '/' then some '/'
      else if e = 'n' then some '\n'
      else if e = 'r' then some '\r'
      else if e = 't' then some '\t'
      else none
    match dec with
    | none => none
    | some c =>
      match parseStr rest with
      | none => none
      | some (cs, rem) => some (c :: cs, rem)
  | c :: rest =>
    match parseStr rest with
    | none => none
    | some (cs, rem) => some (c :: cs, rem)

/-- Parse a run of decimal digits. -/
def parseDigits : List Char → Nat → Option (Nat × List Char)
  | c :: rest, acc =>
    if c ≥ '0' ∧ c ≤ '9' then
      match parseDigits rest (acc * 10 + chDigit c) with
      | some r => some r
      | none => some (acc * 10 + chDigit c, rest)
    else none
  | [], _ => none

mutual

/-- Fuel-bounded recursive-descent JSON value reader (model of the
`json.loads` grammar restricted to the values `dumps` emits). -/
def parseVal : Nat → List Char → Option (Json × List Char)
  | 0, _ => none
  | _ + 1, [] => none
  | fuel + 1, c :: cs =>
    if c = 'n' then
      match cs with
      | 'u' :: 'l' :: 'l' :: rest => some (.null, rest)
      | _ => none
    else if c = 't' then
      match cs with
      | 'r' :: 'u' :: 'e' :: rest => some (.bool true, rest)
      | _ => none
    else if c = 'f' then
      match cs with
      | 'a' :: 'l' :: 's' :: 'e' :: rest => some (.bool false, rest)
      | _ => none
    else if c = '"' then
      match parseStr cs with
      | some (body, rest) => some (.str (String.mk body), rest)
      | none => none
    else if c = '[' then
      match skipWs cs with
      | ']' :: rest => some (.arr [], rest)
      | cs2 => match parseItems fuel cs2 with
        | some (items, rest) => some (.arr items, rest)
        | none => none
    else if c = braceOpen then
      match skipWs cs with
      | d :: rest => if d = braceClose then some (.obj [], rest) else
          match parseFields fuel (d :: rest) with
          | some (fields, rest2) => some (.obj fields, rest2)
          | none => none
      | [] => none
    else if c = '-' then
      match parseDigits cs 0 with
      | some (n, rest) => some (.num (-(n : Int)), rest)
      | none => none
    else if c ≥ '0' ∧ c ≤ '9' then
      match parseDigits (c :: cs) 0 with
      | some (n, rest) => some (.num (n : Int), rest)
      | none => none
    else none

/-- Reads a nonempty comma-separated list of array elements up to `]`. -/
def parseItems : Nat → List Char → Option (List Json × List Char)
  | 0, _ => none
  | fuel + 1, cs =>
    match parseVal fuel (skipWs cs) with
    | none => none
    | some (v, rest) =>
      match skipWs rest with
      | ',' :: rest2 =>
        match parseItems fuel rest2 with
        | some (vs, rest3) => some (v :: vs, rest3)
        | none => none
      | ']' :: rest2 => some ([v], rest2)
      | _ => none

/-- Reads a nonempty comma-separated list of object members up to the
closing brace. -/
def parseFields : Nat → List Char → Option (List (String × Json) × List Char)
  | 0, _ => none
  | fuel + 1, cs =>
    match skipWs cs with
    | '"' :: cs2 =>
      match parseStr cs2 with
      | none => none
      | some (key, rest) =>
        match skipWs rest with
        | ':' :: rest2 =>
          match parseVal fuel (skipWs rest2) with
          | none => none
          | some (v, rest3) =>
            match skipWs rest3 with
            | ',' :: rest4 =>
              match parseFields fuel rest4 with
              | some (fs, rest5) => some ((String.mk key, v) :: fs, rest5)
              | none => none
            | d :: rest4 =>
              if d = braceClose then some ([(String.mk key, v)], rest4) else none
            | [] => none
        | _ => none
    | _ => none

end

/-- ASCII lowercasing of one character, as Python `str.lower()` maps the
characters that flow through the store. -/
def lowerCh (c : Char) : Char :=
  if 'A' ≤ c ∧ c ≤ 'Z' then Char.ofNat (c.toNat + 32) else c

/-- Model of Python `str.lower()`. -/
def pyLower (s : String) : String := String.mk (s.data.map lowerCh)

/-- Splits `cs` at the first occurrence of `pat`: the part before the
occurrence and the part after it.  `none` when `pat` does not occur. -/
def splitFirst (pat : List Char) : List Char → Option (List Char × List Char)
  | [] => if pat = [] then some ([], []) else none
  | c :: cs =>
    if pat.isPrefixOf (c :: cs) then some ([], (c :: cs).drop pat.length)
    else
      match splitFirst pat cs with
      | some (pre, post) => some (c :: pre, post)
      | none => none

/-- Substring containment, modelling Python `in` on strings. -/
def containsSub (pat s : List Char) : Bool := (splitFirst pat s).isSome

/-- `json.loads(s)`: parse a complete JSON document, requiring only
whitespace after the value. -/
def loads (s : String) : Option Json :=
  match parseVal (s.data.length + 1) (skipWs s.data) with
  | some (v, rest) => if skipWs rest = [] then some v else none
  | none => none

mutual

/-- Boolean equality on JSON values. -/
def Json.beq : Json → Json → Bool
  | .null, .null => true
  | .bool a, .bool b => a == b
  | .num a, .num b => a == b
  | .str a, .str b => a == b
  | .arr as, .arr bs => Json.beqList as bs
  | .obj as, .obj bs => Json.beqFields as bs
  | _, _ => false

/-- Boolean equality on JSON arrays. -/
def Json.beqList : List Json → List Json → Bool
  | [], [] => true
  | a :: as, b :: bs => Json.beq a b && Json.beqList as bs
  | _, _ => false

/-- Boolean equality on JSON object members. -/
def Json.beqFields : List (String × Json) → List (String × Json) → Bool
  | [], [] => true
  | (k1, v1) :: as, (k2, v2) :: bs => k1 == k2 && Json.beq v1 v2 && Json.beqFields as bs
  | _, _ => false

end

mutual

theorem Json.eq_of_beq : ∀ {a b : Json}, Json.beq a b = true → a = b
  | .null, b, h => by cases b <;> simp_all [Json.beq]
  | .bool _, b, h => by cases b <;> simp_all [Json.beq]
  | .num _, b, h => by cases b <;> simp_all [Json.beq]
  | .str _, b, h => by cases b <;> simp_all [Json.beq]
  | .arr as, .arr bs, h => by
    have h' : Json.beqList as bs = true := by simpa [Json.beq] using h
    exact congrArg Json.arr (Json.eqList_of_beq h')
  | .arr _, .null, h => by simp [Json.beq] at h
  | .arr _, .bool _, h => by simp [Json.beq] at h
  | .arr _, .num _, h => by simp [Json.beq] at h
  | .arr _, .str _, h => by simp [Json.beq] at h
  | .arr _, .obj _, h => by simp [Json.beq] at h
  | .obj as, .obj bs, h => by
    have h' : Json.beqFields as bs = true := by simpa [Json.beq] using h
    exact congrArg Json.obj (Json.eqFields_of_beq h')
  | .obj _, .null, h => by simp [Json.beq] at h
  | .obj _, .bool _, h => by simp [Json.beq] at h
  | .obj _, .num _, h => by simp [Json.beq] at h
  | .obj _, .str _, h => by simp [Json.beq] at h
  | .obj _, .arr _, h => by simp [Json.beq] at h

theorem Json.eqList_of_beq : ∀ {as bs : List Json}, Json.beqList as bs = true → as = bs
  | [], [], _ => rfl
  | a :: as, b :: bs, h => by
    have h2 := h
    simp only [Json.beqList, Bool.and_eq_true] at h2
    rw [Json.eq_of_beq h2.1, Json.eqList_of_beq h2.2]
  | [], _ :: _, h => by simp [Json.beqList] at h
  | _ :: _, [], h => by simp [Json.beqList] at h

theorem Json.eqFields_of_beq :
    ∀ {as bs : List (String × Json)}, Json.beqFields as bs = true → as = bs
  | [], [], _ => rfl
  | (k1, v1) :: as, (k2, v2) :: bs, h => by
    have h2 := h
    simp only [Json.beqFields, Bool.and_eq_true, beq_iff_eq] at h2
    rw [h2.1.1, Json.eq_of_beq h2.1.2, Json.eqFields_of_beq h2.2]
  | [], _ :: _, h => by simp [Json.beqFields] at h
  | _ :: _, [], h => by simp [Json.beqFields] at h

end

mutual

theorem Json.beq_self : ∀ (a : Json), Json.beq a a = true
  | .null => rfl
  | .bool a => by simp [Json.beq]
  | .num a => by simp [Json.beq]
  | .str a => by simp [Json.beq]
  | .arr as => by simpa [Json.beq] using Json.beqList_self as
  | .obj as => by simpa [Json.beq] using Json.beqFields_self as

theorem Json.beqList_self : ∀ (as : List Json), Json.beqList as as = true
  | [] => rfl
  | a :: as => by
    simp only [Json.beqList, Bool.and_eq_true]
    exact ⟨Json.beq_self a, Json.beqList_self as⟩

theorem Json.beqFields_self : ∀ (as : List (String × Json)), Json.beqFields as as = true
  | [] => rfl
  | (k, v) :: as => by
    simp [Json.beqFields, Json.beq_self v, Json.beqFields_self as]

end

instance : DecidableEq Json := fun a b =>
  if h : Json.beq a b = true then .isTrue (Json.eq_of_beq h)
  else .isFalse (fun e => h (e ▸ Json.beq_self a))

/-! ## Schema and error taxonomy (`kaizen/schema/`) -/

/-- Python-level exceptions raised by the code under verification.
`kaizenException` is the base `KaizenException` of `schema/exceptions.py`
(the spec's `StoreError`); the namespace errors are its two subclasses;
the remaining constructors model built-in Python exceptions. -/
inductive PyError where
  | kaizenException (msg : String)
  | namespaceNotFound (msg : String)
  | namespaceAlreadyExists (msg : String)
  | indexError (msg : String)
  | keyError (key : String)
  | valueError (msg : String)
  | typeError (msg : String)
  | attributeError (msg : String)
  | validationError (msg : String)
deriving DecidableEq

deriving instance DecidableEq for Except

/-- Dict-shaped `metadata` of an entity. -/
abbrev Metadata := List (String × Json)

/-- `Entity` of `kaizen/schema/core.py`: `content`, optional `metadata`,
`type`.  The record holds the runtime value; pydantic's field validation is
modelled separately by `Entity.validate`. -/
structure Entity where
  content : Json
  metadata : Option Metadata
  type : String
deriving DecidableEq

/-- Pydantic v2 validation of a field annotated `str`, as `Entity.content`
is in `kaizen/schema/core.py` (line 19): in lax mode a `str` field accepts
only strings; lists, dicts and other values are rejected with a
`ValidationError`. -/
def strFieldAccepts : Json → Bool
  | .str _ => true
  | _ => false

/-- Model of the pydantic constructor call
`Entity(content=..., metadata=..., type=...)`. -/
def Entity.validate (content : Json) (metadata : Option Metadata) (ty : String) :
    Except PyError Entity :=
  if strFieldAccepts content then .ok ⟨content, metadata, ty⟩
  else .error (.validationError "Input should be a valid string")

/-- The `event` discriminator of an `EntityUpdate`
(`kaizen/schema/conflict_resolution.py`). -/
inductive EventType where
  | ADD
  | UPDATE
  | DELETE
  | NONE
deriving DecidableEq

/-- `EntityUpdate` of `kaizen/schema/conflict_resolution.py`. -/
structure EntityUpdate where
  id : String
  type : String
  content : Json
  event : EventType
  old_entity : Option String
  metadata : Option Metadata
deriving DecidableEq

/-- `RecordedEntity` of `kaizen/schema/core.py`: a stored entity as
returned by reads. -/
structure RecordedEntity where
  id : String
  type : String
  content : Json
  created_at : String
  metadata : Option Metadata
deriving DecidableEq

instance : Inhabited RecordedEntity := ⟨⟨"", "", .null, "", none⟩⟩

/-- `serialize_content` of `kaizen/backend/milvus.py` (lines 20-24):
strings pass through, other values are JSON-serialized. -/
def serialize_content : Json → String
  | .str s => s
  | v => dumps v

/-- `deserialize_content` of `kaizen/backend/milvus.py` (lines 27-32):
`json.loads`, falling back to the raw string on a decode error. -/
def deserialize_content (s : String) : Json :=
  match loads s with
  | some v => v
  | none => .str s

/-! ## Filesystem backend (`kaizen/backend/filesystem.py`)

One JSON document per namespace; the store is modelled as an association
list from namespace id to its `FilesystemNamespace` document.  The LLM
conflict resolver (`resolve_conflicts`) is an external collaborator: when
conflict resolution is enabled, the list of `EntityUpdate` events it emits
is a parameter of `update_entities`. -/

/-- A stored entity dict of a filesystem namespace document. -/
structure FsEntity where
  id : String
  type : String
  content : Json
  created_at : String
  metadata : Option Metadata
deriving DecidableEq

/-- `FilesystemNamespace`: the per-namespace JSON document. -/
structure FsNamespace where
  id : String
  created_at : String
  entities : List FsEntity
  next_id : Nat
  num_entities : Nat
deriving DecidableEq

/-- The data directory: a map from namespace id to its JSON document. -/
abbrev FsStore := List (String × FsNamespace)

namespace FilesystemBackend

/-- `_load_namespace_data`: raises `NamespaceNotFoundException` when the
namespace file does not exist. -/
def loadNamespace (store : FsStore) (namespaceId : String) : Except PyError FsNamespace :=
  match store.lookup namespaceId with
  | some d => .ok d
  | none => .error (.namespaceNotFound ("Namespace `" ++ namespaceId ++ "` not found"))

/-- `_save_namespace_data`: writes (creates or overwrites) the namespace
document. -/
def saveNamespace (store : FsStore) (namespaceId : String) (d : FsNamespace) : FsStore :=
  if (store.lookup namespaceId).isSome then
    store.map (fun p => if p.1 = namespaceId then (namespaceId, d) else p)
  else store ++ [(namespaceId, d)]

/-- `create_namespace` with an explicit id (the auto-generated uuid branch
is not modelled; callers in scope always pass an id). -/
def create_namespace (store : FsStore) (namespaceId : String) (nowIso : String) :
    FsStore × Except PyError Unit :=
  if (store.lookup namespaceId).isSome then
    (store, .error (.namespaceAlreadyExists ("Namespace \"" ++ namespaceId ++ "\" already exists.")))
  else
    (store ++ [(namespaceId, ⟨namespaceId, nowIso, [], 1, 0⟩)], .ok ())

/-- Mutate the first entity with the given id, as the `for`/`break` loop of
the `UPDATE` case does. -/
def updateFirst (entities : List FsEntity) (uid : String) (f : FsEntity → FsEntity) :
    List FsEntity :=
  match entities with
  | [] => []
  | e :: rest => if e.id = uid then f e :: rest else e :: updateFirst rest uid f

/-- One iteration of the event loop of `update_entities` (conflict
resolution enabled): apply a single resolver event to the document
(`filesystem.py` lines 172-197). -/
def applyUpdate (entityType nowIso : String) (d : FsNamespace) (u : EntityUpdate) :
    FsNamespace × EntityUpdate :=
  match u.event with
  | .ADD =>
    let entityId := pyNatStr d.next_id
    let newEnt : FsEntity := ⟨entityId, entityType, u.content, nowIso, u.metadata⟩
    (⟨d.id, d.created_at, d.entities ++ [newEnt], d.next_id + 1, d.num_entities⟩,
     { u with id := entityId })
  | .UPDATE =>
    let mutate : FsEntity → FsEntity := fun e => ⟨e.id, e.type, u.content, nowIso, u.metadata⟩
    ({ d with entities := updateFirst d.entities u.id mutate }, u)
  | .DELETE =>
    ({ d with entities := d.entities.filter (fun e => e.id ≠ u.id) }, u)
  | .NONE => (d, u)

/-- The event loop of `update_entities` over all resolver events. -/
def applyUpdates (entityType nowIso : String) (d : FsNamespace) :
    List EntityUpdate → FsNamespace × List EntityUpdate
  | [] => (d, [])
  | u :: rest =>
    let p := applyUpdate entityType nowIso d u
    let q := applyUpdates entityType nowIso p.1 rest
    (q.1, p.2 :: q.2)

/-- The `else` branch of `update_entities` (conflict resolution disabled,
`filesystem.py` lines 198-220): append every entity with a fresh decimal id
from `next_id` and emit an `ADD` event for it. -/
def addAll (entityType nowIso : String) (d : FsNamespace) :
    List Entity → FsNamespace × List EntityUpdate
  | [] => (d, [])
  | e :: rest =>
    let entityId := pyNatStr d.next_id
    let newEnt : FsEntity := ⟨entityId, entityType, e.content, nowIso, e.metadata⟩
    let d2 : FsNamespace := ⟨d.id, d.created_at, d.entities ++ [newEnt], d.next_id + 1, d.num_entities⟩
    let q := addAll entityType nowIso d2 rest
    (q.1, ⟨entityId, entityType, e.content, .ADD, none, e.metadata⟩ :: q.2)

/-- `FilesystemEntityBackend.update_entities` (lines 127-225).
`resolverUpdates` is the event list emitted by the external LLM resolver
`resolve_conflicts`; it is consulted only when `enableConflictResolution`
is set (the similarity search feeding the resolver influences only the
resolver's own output and is folded into this parameter).  After the
same-type check, lines 144-156 unconditionally build the temporary
`RecordedEntity(**entity_data, created_at=now, id=...)` objects for the
resolver, which revalidates `content: str` and raises `ValidationError`
for any non-string content before the namespace is even loaded (a no-op
for genuine pydantic-validated `Entity` inputs). -/
def update_entities (store : FsStore) (namespaceId : String) (entities : List Entity)
    (enableConflictResolution : Bool) (resolverUpdates : List EntityUpdate)
    (nowIso : String) : FsStore × Except PyError (List EntityUpdate) :=
  match entities with
  | [] => (store, .ok [])
  | e0 :: _ =>
    let entityType := e0.type
    if ¬ entities.all (fun e => e.type = entityType) then
      (store, .error (.kaizenException "All entities must have the same type."))
    else if ¬ entities.all (fun e => strFieldAccepts e.content) then
      (store, .error (.validationError "Input should be a valid string"))
    else
      match loadNamespace store namespaceId with
      | .error err => (store, .error err)
      | .ok d =>
        let p :=
          if enableConflictResolution then
            applyUpdates entityType nowIso d resolverUpdates
          else
            addAll entityType nowIso d entities
        (saveNamespace store namespaceId { p.1 with num_entities := p.1.entities.length },
         .ok p.2)

/-- `ent.get(key)` against the top-level fields of a stored entity dict,
with `none` playing Python's `None` (absent key or stored `null`). -/
def topField (e : FsEntity) (key : String) : Option Json :=
  if key = "id" then some (.str e.id)
  else if key = "type" then some (.str e.type)
  else if key = "content" then (if e.content = .null then none else some e.content)
  else if key = "created_at" then some (.str e.created_at)
  else if key = "metadata" then e.metadata.map .obj
  else none

/-- Filter lookup of `_search_entities_internal` (lines 242-249): top-level
field first, metadata fallback only when it is truthy. -/
def entGetForFilter (e : FsEntity) (key : String) : Option Json :=
  match topField e key with
  | some v => some v
  | none =>
    match e.metadata with
    | some md => if md.isEmpty then none else md.lookup key
    | none => none

/-- Equality filter match for one entity (missing values behave like
Python's `None`, i.e. `Json.null`). -/
def matchesFilters (filters : List (String × Json)) (e : FsEntity) : Bool :=
  filters.all (fun kv => ((entGetForFilter e kv.1).getD .null) = kv.2)

/-- The result comprehension of `_search_entities_internal` (lines
271-280): each stored dict is rebuilt as a pydantic `RecordedEntity`,
which revalidates `content: str` — structured stored content raises
`ValidationError` on read — with `None` metadata coerced to the empty
dict (`ent.get("metadata") or \x7b\x7d`). -/
def toRecordedEntities : List FsEntity → Except PyError (List RecordedEntity)
  | [] => .ok []
  | e :: rest =>
    if strFieldAccepts e.content then
      match toRecordedEntities rest with
      | .error err => .error err
      | .ok tl =>
        .ok ((⟨e.id, e.type, e.content, e.created_at, some (e.metadata.getD [])⟩ :
          RecordedEntity) :: tl)
    else .error (.validationError "Input should be a valid string")

/-- `_search_entities_internal` (lines 227-280): equality filters, then
optional case-insensitive substring match on the (serialized) content,
capped at `limit`, then the `RecordedEntity` reconstruction of the
results. -/
def searchInternal (d : FsNamespace) (query : Option String)
    (filters : List (String × Json)) (limit : Nat) : Except PyError (List RecordedEntity) :=
  let entities : List FsEntity :=
    if filters.isEmpty then d.entities else d.entities.filter (matchesFilters filters)
  let results : List FsEntity :=
    match query with
    | none => entities.take limit
    | some q =>
      (entities.filter (fun e =>
        let content : String := match e.content with | .str s => s | v => dumps v
        containsSub (pyLower q).data (pyLower content).data)).take limit
  toRecordedEntities results

/-- `FilesystemEntityBackend.search_entities` (lines 282-292). -/
def search_entities (store : FsStore) (namespaceId : String) (query : Option String)
    (filters : List (String × Json)) (limit : Nat) : Except PyError (List RecordedEntity) :=
  match loadNamespace store namespaceId with
  | .error err => .error err
  | .ok d => searchInternal d query filters limit

/-- `FilesystemEntityBackend.delete_entity_by_id` (lines 294-303): load,
filter the id out, raise `KaizenException` when nothing was removed (before
any save), else save. -/
def delete_entity_by_id (store : FsStore) (namespaceId entityId : String) :
    FsStore × Except PyError Unit :=
  match loadNamespace store namespaceId with
  | .error err => (store, .error err)
  | .ok d =>
    let filtered := d.entities.filter (fun e => e.id ≠ entityId)
    if filtered.length = d.entities.length then
      (store, .error (.kaizenException ("Entity `" ++ entityId ++ "` not found")))
    else
      (saveNamespace store namespaceId
        { d with entities := filtered, num_entities := filtered.length }, .ok ())

end FilesystemBackend

/-! ## Vector backend (`kaizen/backend/milvus.py`)

The Milvus collection is modelled as a list of rows tagged with their
collection name, plus the auto-increment primary-key counter that Milvus
maintains for `auto_id` collections.  Embeddings only influence search
ranking, which no claim depends on, so rows do not carry them. -/

/-- One stored Milvus row (`entity_schema`, lines 221-229). -/
structure MilvusRow where
  id : Nat
  type : String
  content : String
  created_at : Int
  metadata : Option Metadata
deriving DecidableEq

/-- The Milvus server state: collections, rows, and the auto-id counter. -/
structure MilvusState where
  collections : List String
  rows : List (String × MilvusRow)
  nextAutoId : Nat
deriving DecidableEq

/-- Python `int(s)` on a string: optional sign followed by decimal digits;
anything else raises `ValueError`. -/
def pyIntOfStr (s : String) : Option Int :=
  let digitsToNat : List Char → Option Nat := fun cs =>
    if cs.isEmpty ∨ ¬ cs.all (fun c => c ≥ '0' ∧ c ≤ '9') then none
    else some (cs.foldl (fun acc c => acc * 10 + chDigit c) 0)
  match s.data with
  | '-' :: rest => (digitsToNat rest).map (fun n => -(n : Int))
  | '+' :: rest => (digitsToNat rest).map (fun n => (n : Int))
  | cs => (digitsToNat cs).map (fun n => (n : Int))

namespace MilvusBackend

/-- `MilvusEntityBackend.validate_namespace` (lines 47-49). -/
def validate_namespace (st : MilvusState) (namespaceId : String) : Except PyError Unit :=
  if namespaceId ∈ st.collections then .ok ()
  else .error (.namespaceNotFound ("Namespace `" ++ namespaceId ++ "` not found"))

/-- `self.milvus.insert` on an `auto_id` collection: appends a row under a
fresh primary key and returns that key. -/
def insertRow (st : MilvusState) (namespaceId ty contentStr : String) (ts : Int)
    (md : Option Metadata) : MilvusState × Nat :=
  (⟨st.collections, st.rows ++ [(namespaceId, ⟨st.nextAutoId, ty, contentStr, ts, md⟩)],
    st.nextAutoId + 1⟩, st.nextAutoId)

/-- `MilvusEntityBackend.delete_entity_by_id` (lines 195-211): parse the id
as an integer, validate the namespace, check existence, then delete. -/
def delete_entity_by_id (st : MilvusState) (namespaceId entityId : String) :
    MilvusState × Except PyError Unit :=
  match pyIntOfStr entityId with
  | none =>
    (st, .error (.kaizenException
      ("Invalid entity ID: " ++ entityId ++ ". Entity IDs must be numeric.")))
  | some n =>
    match validate_namespace st namespaceId with
    | .error err => (st, .error err)
    | .ok _ =>
      if (st.rows.filter (fun r => r.1 = namespaceId ∧ (r.2.id : Int) = n)).isEmpty then
        (st, .error (.kaizenException
          ("Entity with ID " ++ entityId ++ " not found in namespace " ++ namespaceId ++ ".")))
      else
        (⟨st.collections,
          st.rows.filter (fun r => ¬ (r.1 = namespaceId ∧ (r.2.id : Int) = n)),
          st.nextAutoId⟩, .ok ())

/-- The `else` branch of `MilvusEntityBackend.update_entities` (conflict
resolution disabled, lines 146-165): serialize each content, coerce `None`
metadata to the empty dict, insert, and emit an `ADD` event carrying the
stringified auto-id. -/
def addAll (st : MilvusState) (namespaceId entityType : String) (ts : Int) :
    List Entity → MilvusState × List EntityUpdate
  | [] => (st, [])
  | e :: rest =>
    let contentStr := serialize_content e.content
    let md : Metadata := e.metadata.getD []
    let p := insertRow st namespaceId entityType contentStr ts (some md)
    let q := addAll p.1 namespaceId entityType ts rest
    (q.1, ⟨pyNatStr p.2, entityType, e.content, .ADD, none, some md⟩ :: q.2)

/-- `self.milvus.upsert` with `partial_update=True`: replace the listed
fields of the row with the given primary key, inserting when absent. -/
def upsertRow (st : MilvusState) (namespaceId ty contentStr : String) (rowId : Int)
    (ts : Int) (md : Option Metadata) : MilvusState :=
  if (st.rows.filter (fun r => r.1 = namespaceId ∧ (r.2.id : Int) = rowId)).isEmpty then
    match rowId with
    | .ofNat n => ⟨st.collections, st.rows ++ [(namespaceId, ⟨n, ty, contentStr, ts, md⟩)], st.nextAutoId⟩
    | .negSucc _ => st
  else
    ⟨st.collections,
     st.rows.map (fun r =>
       if r.1 = namespaceId ∧ (r.2.id : Int) = rowId then
         (r.1, ⟨r.2.id, ty, contentStr, ts, md⟩)
       else r),
     st.nextAutoId⟩

/-- The event loop of `MilvusEntityBackend.update_entities` (conflict
resolution enabled, lines 121-145).  `int(update.id)` and the delete's
existence check can raise, so the loop threads an `Except`; rows inserted
before the raise remain. -/
def applyUpdates (st : MilvusState) (namespaceId entityType : String) (ts : Int) :
    List EntityUpdate → MilvusState × Except PyError (List EntityUpdate)
  | [] => (st, .ok [])
  | u :: rest =>
    let contentStr := serialize_content u.content
    match u.event with
    | .ADD =>
      let p := insertRow st namespaceId entityType contentStr ts u.metadata
      let q := applyUpdates p.1 namespaceId entityType ts rest
      (q.1, q.2.map (fun us => { u with id := pyNatStr p.2 } :: us))
    | .UPDATE =>
      match pyIntOfStr u.id with
      | none =>
        (st, .error (.valueError ("invalid literal for int() with base 10: " ++ u.id)))
      | some n =>
        let st2 := upsertRow st namespaceId entityType contentStr n ts u.metadata
        let q := applyUpdates st2 namespaceId entityType ts rest
        (q.1, q.2.map (fun us => u :: us))
    | .DELETE =>
      let p := delete_entity_by_id st namespaceId u.id
      match p.2 with
      | .error err => (p.1, .error err)
      | .ok _ =>
        let q := applyUpdates p.1 namespaceId entityType ts rest
        (q.1, q.2.map (fun us => u :: us))
    | .NONE =>
      let q := applyUpdates st namespaceId entityType ts rest
      (q.1, q.2.map (fun us => u :: us))

/-- `MilvusEntityBackend.update_entities` (lines 90-166).  Note the order:
the namespace is validated, then `entities[0].type` is read — an empty
batch raises `IndexError` — then the same-type check runs.  Lines 103-112
then unconditionally build the temporary
`RecordedEntity(**entity_data, ...)` objects for the resolver, which
revalidate `content: str` and raise `ValidationError` for non-string
content (a no-op for genuine pydantic-validated `Entity` inputs).  As for
the filesystem backend, the resolver's event list is a parameter. -/
def update_entities (st : MilvusState) (namespaceId : String) (entities : List Entity)
    (enableConflictResolution : Bool) (resolverUpdates : List EntityUpdate) (ts : Int) :
    MilvusState × Except PyError (List EntityUpdate) :=
  match validate_namespace st namespaceId with
  | .error err => (st, .error err)
  | .ok _ =>
    match entities with
    | [] => (st, .error (.indexError "list index out of range"))
    | e0 :: _ =>
      if ¬ entities.all (fun e => e.type = e0.type) then
        (st, .error (.kaizenException "All entities must have the same type."))
      else if ¬ entities.all (fun e => strFieldAccepts e.content) then
        (st, .error (.validationError "Input should be a valid string"))
      else if enableConflictResolution then
        applyUpdates st namespaceId e0.type ts resolverUpdates
      else
        let p := addAll st namespaceId e0.type ts entities
        (p.1, .ok p.2)

end MilvusBackend

/-! ## The `resolve=false` write path, characterized -/

/-- Specification helper: the event list a `resolve=false` write of a batch
returns — one `ADD` per input entity in input order, ids minted as decimal
strings from `base`, metadata passed through `mdf` (the identity for the
filesystem backend; `None`-to-empty-dict coercion for the vector backend). -/
def expectedAdds (ty : String) (mdf : Option Metadata → Option Metadata) :
    Nat → List Entity → List EntityUpdate
  | _, [] => []
  | base, e :: rest =>
    ⟨pyNatStr base, ty, e.content, .ADD, none, mdf e.metadata⟩ ::
      expectedAdds ty mdf (base + 1) rest

/-- Specification helper: the entity dicts a `resolve=false` write appends
to a filesystem namespace document. -/
def expectedRows (ty nowIso : String) : Nat → List Entity → List FsEntity
  | _, [] => []
  | base, e :: rest =>
    ⟨pyNatStr base, ty, e.content, nowIso, e.metadata⟩ :: expectedRows ty nowIso (base + 1) rest

theorem expectedAdds_length (ty : String) (mdf : Option Metadata → Option Metadata) :
    ∀ (base : Nat) (l : List Entity), (expectedAdds ty mdf base l).length = l.length := by
  intro base l
  induction l generalizing base with
  | nil => rfl
  | cons e rest ih => simp [expectedAdds, ih]

theorem expectedAdds_mem_event (ty : String) (mdf : Option Metadata → Option Metadata) :
    ∀ (base : Nat) (l : List Entity) (u : EntityUpdate), u ∈ expectedAdds ty mdf base l →
      u.event = .ADD ∧ u.type = ty := by
  intro base l
  induction l generalizing base with
  | nil => intro u h; cases h
  | cons e rest ih =>
    intro u h
    rcases List.mem_cons.mp h with h1 | h2
    · subst h1; exact ⟨rfl, rfl⟩
    · exact ih (base + 1) u h2

theorem expectedAdds_getElem (ty : String) (mdf : Option Metadata → Option Metadata) :
    ∀ (base : Nat) (l : List Entity) (i : Nat),
      (expectedAdds ty mdf base l)[i]? = (l[i]?).map
        (fun e => ⟨pyNatStr (base + i), ty, e.content, .ADD, none, mdf e.metadata⟩) := by
  intro base l
  induction l generalizing base with
  | nil => intro i; simp [expectedAdds]
  | cons e rest ih =>
    intro i
    cases i with
    | zero => simp [expectedAdds]
    | succ j =>
      simp only [expectedAdds, List.getElem?_cons_succ]
      rw [ih (base + 1) j]
      have : base + 1 + j = base + (j + 1) := by omega
      rw [this]

theorem expectedAdds_mem_id (ty : String) (mdf : Option Metadata → Option Metadata) :
    ∀ (base : Nat) (l : List Entity) (u : EntityUpdate), u ∈ expectedAdds ty mdf base l →
      ∃ m, base ≤ m ∧ m < base + l.length ∧ u.id = pyNatStr m := by
  intro base l
  induction l generalizing base with
  | nil => intro u h; cases h
  | cons e rest ih =>
    intro u h
    rcases List.mem_cons.mp h with h1 | h2
    · exact ⟨base, le_refl base, by simp, by rw [h1]⟩
    · obtain ⟨m, h1, h2, h3⟩ := ih (base + 1) u h2
      exact ⟨m, by omega, by simp; omega, h3⟩

theorem expectedAdds_ids_pairwise (ty : String) (mdf : Option Metadata → Option Metadata) :
    ∀ (base : Nat) (l : List Entity),
      (expectedAdds ty mdf base l).Pairwise (fun u v => u.id ≠ v.id) := by
  intro base l
  induction l generalizing base with
  | nil => exact List.Pairwise.nil
  | cons e rest ih =>
    refine List.Pairwise.cons ?_ (ih (base + 1))
    intro v hv
    obtain ⟨m, hm1, _, hm3⟩ := expectedAdds_mem_id ty mdf (base + 1) rest v hv
    simp only [hm3]
    intro hc
    have := pyNatStr_injective hc
    omega

theorem FilesystemBackend.addAll_eq (entityType nowIso : String) :
    ∀ (l : List Entity) (d : FsNamespace),
      FilesystemBackend.addAll entityType nowIso d l =
        (⟨d.id, d.created_at, d.entities ++ expectedRows entityType nowIso d.next_id l,
          d.next_id + l.length, d.num_entities⟩,
         expectedAdds entityType (fun md => md) d.next_id l) := by
  intro l
  induction l with
  | nil => intro d; simp [FilesystemBackend.addAll, expectedAdds, expectedRows]
  | cons e rest ih =>
    intro d
    simp only [FilesystemBackend.addAll, expectedAdds, expectedRows, ih]
    simp only [Prod.mk.injEq, FsNamespace.mk.injEq, List.append_assoc, List.cons_append,
      List.singleton_append, List.length_cons]
    exact ⟨⟨trivial, trivial, by simp, by omega, trivial⟩, trivial⟩

theorem MilvusBackend.addAllRows_eq (namespaceId entityType : String) (ts : Int) :
    ∀ (l : List Entity) (st : MilvusState),
      MilvusBackend.addAll st namespaceId entityType ts l =
        (⟨st.collections,
          st.rows ++ (expectedRows entityType "" st.nextAutoId l).map (fun e =>
            (namespaceId, ⟨pyNatStrInv e.id, e.type, serialize_content e.content, ts,
              some ((e.metadata).getD [])⟩)),
          st.nextAutoId + l.length⟩,
         expectedAdds entityType (fun md => some (md.getD [])) st.nextAutoId l) := by
  intro l
  induction l with
  | nil => intro st; simp [MilvusBackend.addAll, expectedAdds, expectedRows]
  | cons e rest ih =>
    intro st
    simp only [MilvusBackend.addAll, MilvusBackend.insertRow, expectedAdds, expectedRows, ih]
    simp only [Prod.mk.injEq, MilvusState.mk.injEq, List.map_cons, pyNatStrInv_pyNatStr,
      List.append_assoc, List.cons_append, List.singleton_append, List.length_cons]
    exact ⟨⟨trivial, by simp, by omega⟩, trivial⟩

theorem FilesystemBackend.update_entities_resolve_false_eq
    (store : FsStore) (namespaceId nowIso : String) (e0 : Entity) (rest : List Entity)
    (d : FsNamespace)
    (hload : FilesystemBackend.loadNamespace store namespaceId = .ok d)
    (htype : ∀ e ∈ e0 :: rest, e.type = e0.type)
    (hcontent : ∀ e ∈ e0 :: rest, strFieldAccepts e.content) :
    FilesystemBackend.update_entities store namespaceId (e0 :: rest) false [] nowIso =
      (FilesystemBackend.saveNamespace store namespaceId
        ⟨d.id, d.created_at, d.entities ++ expectedRows e0.type nowIso d.next_id (e0 :: rest),
         d.next_id + (e0 :: rest).length,
         (d.entities ++ expectedRows e0.type nowIso d.next_id (e0 :: rest)).length⟩,
       .ok (expectedAdds e0.type (fun md => md) d.next_id (e0 :: rest))) := by
  have hall : ((e0 :: rest).all (fun e => e.type = e0.type)) = true := by
    simp only [List.all_eq_true, decide_eq_true_eq]
    exact htype
  have hallc : ((e0 :: rest).all (fun e => strFieldAccepts e.content)) = true := by
    simp only [List.all_eq_true]
    exact hcontent
  simp [FilesystemBackend.update_entities, hall, hallc, hload, FilesystemBackend.addAll_eq]

theorem MilvusBackend.update_entities_resolve_false_rows_eq
    (st : MilvusState) (namespaceId : String) (ts : Int) (e0 : Entity) (rest : List Entity)
    (hcoll : namespaceId ∈ st.collections)
    (htype : ∀ e ∈ e0 :: rest, e.type = e0.type)
    (hcontent : ∀ e ∈ e0 :: rest, strFieldAccepts e.content) :
    MilvusBackend.update_entities st namespaceId (e0 :: rest) false [] ts =
      ((MilvusBackend.addAll st namespaceId e0.type ts (e0 :: rest)).1,
       .ok (expectedAdds e0.type (fun md => some (md.getD [])) st.nextAutoId (e0 :: rest))) := by
  have hall : ((e0 :: rest).all (fun e => e.type = e0.type)) = true := by
    simp only [List.all_eq_true, decide_eq_true_eq]
    exact htype
  have hallc : ((e0 :: rest).all (fun e => strFieldAccepts e.content)) = true := by
    simp only [List.all_eq_true]
    exact hcontent
  simp [MilvusBackend.update_entities, MilvusBackend.validate_namespace, hcoll, hall, hallc,
    MilvusBackend.addAllRows_eq]

/-- Specification predicate for a `resolve=false` write: the call returned
`ok` with one `ADD` per batch element in input order, the `i`-th event made
from the `i`-th entity and carrying the freshly minted id `pyNatStr (base+i)`;
the ids are pairwise distinct and avoid every id in `usedIds`. -/
def ResolveFalseSpec (result : Except PyError (List EntityUpdate)) (ty : String)
    (mdf : Option Metadata → Option Metadata) (base : Nat) (batch : List Entity)
    (usedIds : List String) : Prop :=
  ∃ updates,
    result = .ok updates ∧
    updates.length = batch.length ∧
    (∀ u ∈ updates, u.event = .ADD) ∧
    (∀ i : Nat, updates[i]? = (batch[i]?).map (fun e =>
      ⟨pyNatStr (base + i), ty, e.content, .ADD, none, mdf e.metadata⟩)) ∧
    updates.Pairwise (fun u v => u.id ≠ v.id) ∧
    (∀ u ∈ updates, u.id ∉ usedIds)

theorem expectedAdds_resolveFalseSpec (ty : String) (mdf : Option Metadata → Option Metadata)
    (base : Nat) (batch : List Entity) (usedIds : List String)
    (hused : ∀ s ∈ usedIds, ∃ m, m < base ∧ s = pyNatStr m) :
    ResolveFalseSpec (.ok (expectedAdds ty mdf base batch)) ty mdf base batch usedIds := by
  refine ⟨expectedAdds ty mdf base batch, rfl, expectedAdds_length ty mdf base batch,
    fun u hu => (expectedAdds_mem_event ty mdf base batch u hu).1,
    fun i => expectedAdds_getElem ty mdf base batch i,
    expectedAdds_ids_pairwise ty mdf base batch, ?_⟩
  intro u hu hmem
  obtain ⟨m, hm1, _, hm3⟩ := expectedAdds_mem_id ty mdf base batch u hu
  obtain ⟨m', hm'1, hm'2⟩ := hused u.id hmem
  rw [hm3] at hm'2
  have := pyNatStr_injective hm'2.symm
  omega

/-- C1: for every `update_entities` call on either backend with a non-empty
same-type batch of (pydantic-validated, hence string-content) entities and
conflict resolution disabled, the returned list has exactly one
`EntityUpdate` per input entity, every event is `ADD`, the list preserves
input order, and the assigned ids are pairwise distinct and newly generated
(distinct from every stored id of the namespace).  The `hcontent`
hypothesis is the source's input typing: `entities: list[Entity]` contains
only values the `Entity` model accepted, whose `content` is a string. -/
theorem C1_resolve_false_batch_adds
    (store : FsStore) (namespaceId nowIso : String) (e0 : Entity) (rest : List Entity)
    (d : FsNamespace) (st : MilvusState) (ts : Int)
    (hload : FilesystemBackend.loadNamespace store namespaceId = .ok d)
    (htype : ∀ e ∈ e0 :: rest, e.type = e0.type)
    (hcontent : ∀ e ∈ e0 :: rest, strFieldAccepts e.content)
    (hwf : ∀ e ∈ d.entities, ∃ m, m < d.next_id ∧ e.id = pyNatStr m)
    (hcoll : namespaceId ∈ st.collections)
    (hwfm : ∀ r ∈ st.rows, r.2.id < st.nextAutoId) :
    ResolveFalseSpec (FilesystemBackend.update_entities store namespaceId
        (e0 :: rest) false [] nowIso).2
      e0.type (fun md => md) d.next_id (e0 :: rest) (d.entities.map (fun e => e.id)) ∧
    ResolveFalseSpec (MilvusBackend.update_entities st namespaceId
        (e0 :: rest) false [] ts).2
      e0.type (fun md => some (md.getD [])) st.nextAutoId (e0 :: rest)
      (st.rows.map (fun r => pyNatStr r.2.id)) := by
  constructor
  · rw [FilesystemBackend.update_entities_resolve_false_eq store namespaceId nowIso e0 rest d
      hload htype hcontent]
    apply expectedAdds_resolveFalseSpec
    intro s hs
    obtain ⟨e, he, hse⟩ := List.mem_map.mp hs
    obtain ⟨m, hm1, hm2⟩ := hwf e he
    exact ⟨m, hm1, hse ▸ hm2⟩
  · rw [MilvusBackend.update_entities_resolve_false_rows_eq st namespaceId ts e0 rest hcoll
      htype hcontent]
    apply expectedAdds_resolveFalseSpec
    intro s hs
    obtain ⟨r, hr, hsr⟩ := List.mem_map.mp hs
    exact ⟨r.2.id, hwfm r hr, hsr.symm⟩

theorem C1_resolve_false_batch_adds_witness :
    ResolveFalseSpec (FilesystemBackend.update_entities [("ns", ⟨"ns", "t0", [], 1, 0⟩)] "ns"
        [⟨.str "a", none, "note"⟩, ⟨.str "b", none, "note"⟩] false [] "t1").2
      "note" (fun md => md) 1 [⟨.str "a", none, "note"⟩, ⟨.str "b", none, "note"⟩] [] ∧
    ResolveFalseSpec (MilvusBackend.update_entities ⟨["ns"], [], 1⟩ "ns"
        [⟨.str "a", none, "note"⟩, ⟨.str "b", none, "note"⟩] false [] 0).2
      "note" (fun md => some (md.getD [])) 1 [⟨.str "a", none, "note"⟩, ⟨.str "b", none, "note"⟩]
      [] :=
  C1_resolve_false_batch_adds [("ns", ⟨"ns", "t0", [], 1, 0⟩)] "ns" "t1"
    ⟨.str "a", none, "note"⟩ [⟨.str "b", none, "note"⟩] ⟨"ns", "t0", [], 1, 0⟩
    ⟨["ns"], [], 1⟩ 0 rfl (by decide) (by decide) (by intro e he; cases he) (by decide)
    (by intro r hr; cases hr)

/-- C8 (observed behaviour): an empty batch is a no-op returning the empty
list on the filesystem backend — before any namespace load or save — but on
the vector backend `entities[0].type` runs before any emptiness check, so
the same call on an existing collection raises `IndexError` instead of
returning the empty list. -/
theorem C8_empty_batch_behaviour
    (store : FsStore) (namespaceId nowIso : String) (cr : Bool)
    (resolver : List EntityUpdate) (ts : Int) :
    FilesystemBackend.update_entities store namespaceId [] cr resolver nowIso =
      (store, .ok []) ∧
    MilvusBackend.update_entities ⟨["demo"], [], 1⟩ "demo" [] cr resolver ts =
      (⟨["demo"], [], 1⟩, .error (.indexError "list index out of range")) :=
  ⟨rfl, rfl⟩

/-- C9: every write batch either consists of entities of a single type, or
the call fails on both backends with the base `KaizenException` (the spec's
`StoreError`) whose message matches the pattern `same type`
case-insensitively, and in the failure case nothing is persisted: the store
is returned unchanged. -/
theorem C9_mixed_type_batch_rejected
    (store : FsStore) (namespaceId nowIso : String) (e0 : Entity) (rest : List Entity)
    (cr : Bool) (resolver : List EntityUpdate) (st : MilvusState) (ts : Int)
    (hcoll : namespaceId ∈ st.collections) :
    (∀ e ∈ e0 :: rest, e.type = e0.type) ∨
    (∃ msg, containsSub "same type".data (pyLower msg).data = true ∧
      FilesystemBackend.update_entities store namespaceId (e0 :: rest) cr resolver nowIso =
        (store, .error (.kaizenException msg)) ∧
      MilvusBackend.update_entities st namespaceId (e0 :: rest) cr resolver ts =
        (st, .error (.kaizenException msg))) := by
  by_cases h : ∀ e ∈ e0 :: rest, e.type = e0.type
  · exact .inl h
  · right
    have hall : ((e0 :: rest).all (fun e => e.type = e0.type)) = false := by
      rw [← Bool.not_eq_true]
      simpa [List.all_eq_true] using h
    refine ⟨"All entities must have the same type.", by decide, ?_, ?_⟩
    · simp [FilesystemBackend.update_entities, hall]
    · simp [MilvusBackend.update_entities, MilvusBackend.validate_namespace, hcoll, hall]

theorem C9_mixed_type_batch_rejected_witness :
    (∀ e ∈ [(⟨.str "x", none, "a"⟩ : Entity), ⟨.str "y", none, "b"⟩], e.type = "a") ∨
    (∃ msg, containsSub "same type".data (pyLower msg).data = true ∧
      FilesystemBackend.update_entities [] "demo"
          [⟨.str "x", none, "a"⟩, ⟨.str "y", none, "b"⟩] false [] "t1" =
        ([], .error (.kaizenException msg)) ∧
      MilvusBackend.update_entities ⟨["demo"], [], 1⟩ "demo"
          [⟨.str "x", none, "a"⟩, ⟨.str "y", none, "b"⟩] false [] 0 =
        (⟨["demo"], [], 1⟩, .error (.kaizenException msg))) :=
  C9_mixed_type_batch_rejected [] "demo" "t1" ⟨.str "x", none, "a"⟩ [⟨.str "y", none, "b"⟩]
    false [] ⟨["demo"], [], 1⟩ 0 (by decide)

/-- C10: on the filesystem backend, deleting an entity id absent from an
existing namespace raises `KaizenException` before any save, so the stored
state is completely unchanged — the operation is atomic on failure. -/
theorem C10_delete_missing_id_atomic
    (store : FsStore) (namespaceId entityId : String) (d : FsNamespace)
    (hload : FilesystemBackend.loadNamespace store namespaceId = .ok d)
    (habsent : ∀ e ∈ d.entities, e.id ≠ entityId) :
    FilesystemBackend.delete_entity_by_id store namespaceId entityId =
      (store, .error (.kaizenException ("Entity `" ++ entityId ++ "` not found"))) := by
  have hfilter : d.entities.filter (fun e => e.id ≠ entityId) = d.entities := by
    rw [List.filter_eq_self]
    intro a ha
    simpa using habsent a ha
  simp only [FilesystemBackend.delete_entity_by_id, hload, hfilter]
  simp

theorem C10_delete_missing_id_atomic_witness :
    FilesystemBackend.delete_entity_by_id
        [("demo", ⟨"demo", "t0", [⟨"1", "note", .str "x", "t0", none⟩], 2, 1⟩)] "demo" "2" =
      ([("demo", ⟨"demo", "t0", [⟨"1", "note", .str "x", "t0", none⟩], 2, 1⟩)],
       .error (.kaizenException ("Entity `" ++ "2" ++ "` not found"))) :=
  C10_delete_missing_id_atomic _ "demo" "2"
    ⟨"demo", "t0", [⟨"1", "note", .str "x", "t0", none⟩], 2, 1⟩ rfl (by decide)

/-- The structured content value of C2: the JSON object with one member
mapping the key `k` to the string `v`. -/
def structuredVal : Json := .obj [("k", .str "v")]

/-- C2 (observed behaviour): the claimed structured-content round-trip
fails at every layer of the program.  Pydantic rejects the object at the
`Entity` boundary (`content: str`, `core.py` line 19); even with that
boundary bypassed, the filesystem write path revalidates each input
through the temporary `RecordedEntity` construction (`filesystem.py`
lines 144-156) and raises `ValidationError` with the store unchanged; and
on a namespace already holding structured content — a state reachable
through a conflict-resolution `ADD`, since `EntityUpdate.content` admits
`str | list | dict` and the event loop stores it verbatim — the read path
raises at the `RecordedEntity` reconstruction (lines 271-280) instead of
returning the value.  Only the vector backend codec
`deserialize_content ∘ serialize_content`, cited by the claim, treats the
value as the spec promises. -/
theorem C2_structured_content_rejected_at_entity :
    Entity.validate structuredVal none "note" =
      .error (.validationError "Input should be a valid string") ∧
    deserialize_content (serialize_content structuredVal) = structuredVal ∧
    FilesystemBackend.update_entities [("ns", ⟨"ns", "t0", [], 1, 0⟩)] "ns"
        [⟨structuredVal, none, "note"⟩] false [] "t1" =
      ([("ns", ⟨"ns", "t0", [], 1, 0⟩)],
       .error (.validationError "Input should be a valid string")) ∧
    (FilesystemBackend.update_entities
        [("ns", ⟨"ns", "t0", [], 1, 0⟩)] "ns" [⟨.str "seed", none, "note"⟩] true
        [⟨"", "note", structuredVal, .ADD, none, none⟩] "t1").2 =
      .ok [⟨"1", "note", structuredVal, .ADD, none, none⟩] ∧
    FilesystemBackend.search_entities
        (FilesystemBackend.update_entities
          [("ns", ⟨"ns", "t0", [], 1, 0⟩)] "ns" [⟨.str "seed", none, "note"⟩] true
          [⟨"", "note", structuredVal, .ADD, none, none⟩] "t1").1
        "ns" none [] 10 =
      .error (.validationError "Input should be a valid string") := by
  refine ⟨rfl, ?_, ?_, ?_, ?_⟩ <;> decide

/-! ## Tip clustering (`kaizen/llm/tips/clustering.py`)

The sentence-transformer embedding model is an external collaborator,
passed in as `encodeFn`; machine floats of the similarity computation are
modelled by `ℚ`. -/

/-- `MAX_CLUSTER_ENTITIES` (clustering.py line 24). -/
def MAX_CLUSTER_ENTITIES : Nat := 5000

namespace Clustering

/-- `parent[x]` with the index always in range on reachable states;
out-of-range reads take the harmless value `x`. -/
def parentOf (parent : List Nat) (x : Nat) : Nat := parent.getD x x

/-- The body of `find` (clustering.py lines 46-50): a `while` loop with
path halving — `parent[x] = parent[parent[x]]; x = parent[x]` until
`parent[x] == x`.  The loop is modelled with a fuel bound;
`parent.length` iterations always reach the root (`findAux_spec`). -/
def findAux : Nat → List Nat → Nat → List Nat × Nat
  | 0, parent, x => (parent, x)
  | fuel + 1, parent, x =>
    let px := parentOf parent x
    if px = x then (parent, x)
    else findAux fuel (parent.set x (parentOf parent px)) (parentOf parent px)

/-- `find(x)` — returns the updated parent array and the root. -/
def ufFind (parent : List Nat) (x : Nat) : List Nat × Nat :=
  findAux parent.length parent x

/-- One iteration of the union loop (lines 52-55):
`ri, rj = find(i), find(j); if ri != rj: parent[ri] = rj`. -/
def unionOne (parent : List Nat) (i j : Nat) : List Nat :=
  let p1 := ufFind parent i
  let p2 := ufFind p1.1 j
  if p1.2 ≠ p2.2 then p2.1.set p1.2 p2.2 else p2.1

/-- The union loop of `_union_find` (lines 52-55). -/
def unionAll (parent : List Nat) : List (Nat × Nat) → List Nat
  | [] => parent
  | (i, j) :: rest => unionAll (unionOne parent i j) rest

/-- `groups.setdefault(root, []).append(i)` over an insertion-ordered
dict, modelled as an association list. -/
def addToBucket (buckets : List (Nat × List Nat)) (root i : Nat) :
    List (Nat × List Nat) :=
  match buckets with
  | [] => [(root, [i])]
  | (r, l) :: rest =>
    if r = root then (r, l ++ [i]) :: rest else (r, l) :: addToBucket rest root i

/-- The grouping loop of `_union_find` (lines 57-60). -/
def groupAll (parent : List Nat) (buckets : List (Nat × List Nat)) :
    List Nat → List Nat × List (Nat × List Nat)
  | [] => (parent, buckets)
  | i :: rest =>
    let p := ufFind parent i
    groupAll p.1 (addToBucket buckets p.2 i) rest

/-- `_union_find(n, pairs)` (lines 34-62). -/
def unionFind (n : Nat) (pairs : List (Nat × Nat)) : List (List Nat) :=
  let parent := unionAll (List.range n) pairs
  ((groupAll parent [] (List.range n)).2).map (fun b => b.2)

end Clustering

/-- Inner product of two embedding vectors (`embeddings @ embeddings.T`
entrywise; the embeddings are unit-normalized by the model, making this
the cosine similarity). -/
def dot (v w : List ℚ) : ℚ := (List.zipWith (fun a b => a * b) v w).sum

/-- `(entity.metadata or \x7b\x7d).get("task_description")`, with `null`
for an absent key. -/
def taskDescription (e : RecordedEntity) : Json :=
  ((e.metadata.getD []).lookup "task_description").getD .null

/-- Truthiness filter of clustering.py lines 88-92. -/
def hasTaskDescription (e : RecordedEntity) : Bool := pyTruthy (taskDescription e)

/-- The filtered entity list of `cluster_entities`: entities carrying a
truthy `task_description`, truncated to `MAX_CLUSTER_ENTITIES`. -/
def clusterFiltered (entities : List RecordedEntity) : List RecordedEntity :=
  (entities.filter hasTaskDescription).take MAX_CLUSTER_ENTITIES

/-- The embedding matrix: each kept task description through the model. -/
def clusterEmbeddings (encodeFn : Json → List ℚ) (entities : List RecordedEntity) :
    List (List ℚ) :=
  (clusterFiltered entities).map (fun e => encodeFn (taskDescription e))

/-- The thresholded strict-upper-triangle index pairs, in row-major order
(`np.triu(similarity_matrix >= threshold, k=1)` and `np.where`,
clustering.py lines 112-116).  The threshold comparison is inclusive. -/
def clusterPairs (encodeFn : Json → List ℚ) (threshold : ℚ)
    (entities : List RecordedEntity) : List (Nat × Nat) :=
  let n := (clusterFiltered entities).length
  let embeddings := clusterEmbeddings encodeFn entities
  (List.range n).flatMap (fun i =>
    ((List.range n).filter (fun j =>
      i < j ∧ threshold ≤ dot (embeddings.getD i []) (embeddings.getD j []))).map
      (fun j => (i, j)))

/-- `cluster_entities` (clustering.py lines 65-127): filter, truncate,
embed, threshold, union-find, drop singleton groups, return entity
clusters. -/
def cluster_entities (encodeFn : Json → List ℚ) (threshold : ℚ)
    (entities : List RecordedEntity) : List (List RecordedEntity) :=
  if (entities.filter hasTaskDescription).length < 2 then []
  else
    let filtered := clusterFiltered entities
    let groups := Clustering.unionFind filtered.length (clusterPairs encodeFn threshold entities)
    (groups.filter (fun g => ¬ g.length < 2)).map (fun g =>
      g.map (fun i => filtered.getD i default))

namespace Clustering

/-- `x` reaches the root `r` in exactly `k` parent-following steps. -/
inductive ReachesIn (parent : List Nat) : Nat → Nat → Nat → Prop where
  | zero (x : Nat) (h : parentOf parent x = x) : ReachesIn parent x x 0
  | succ (x r k : Nat) (h : parentOf parent x ≠ x)
      (tail : ReachesIn parent (parentOf parent x) r k) : ReachesIn parent x r (k + 1)

/-- Acyclicity: every node reaches a root. -/
def Rooted (parent : List Nat) : Prop := ∀ x, ∃ r k, ReachesIn parent x r k

/-- All stored parent values are in range. -/
def Bounded (parent : List Nat) : Prop := ∀ v ∈ parent, v < parent.length

/-- `r` is the root of `x`. -/
def RootOf (parent : List Nat) (x r : Nat) : Prop := ∃ k, ReachesIn parent x r k

/-- `a` and `b` lie in the same union-find class. -/
def RootEq (parent : List Nat) (a b : Nat) : Prop :=
  ∃ r, RootOf parent a r ∧ RootOf parent b r

theorem reachesIn_unique {parent : List Nat} :
    ∀ {x r k r' k' : Nat}, ReachesIn parent x r k → ReachesIn parent x r' k' →
      r = r' ∧ k = k' := by
  intro x r k r' k' h1
  induction h1 generalizing r' k' with
  | zero a ha =>
    intro h2
    cases h2 with
    | zero _ _ => exact ⟨rfl, rfl⟩
    | succ _ _ _ hb _ => exact absurd ha hb
  | succ a r k ha tail ih =>
    intro h2
    cases h2 with
    | zero _ hb => exact absurd hb ha
    | succ _ rb kb hb tailb =>
      obtain ⟨e1, e2⟩ := ih tailb
      exact ⟨e1, by omega⟩

theorem reachesIn_root_fix {parent : List Nat} :
    ∀ {x r k : Nat}, ReachesIn parent x r k → parentOf parent r = r := by
  intro x r k h
  induction h with
  | zero a ha => exact ha
  | succ _ _ _ _ _ ih => exact ih

/-- Parent-following iteration. -/
def iterP (parent : List Nat) (m x : Nat) : Nat := (parentOf parent)^[m] x

theorem reachesIn_iter {parent : List Nat} :
    ∀ {x r k : Nat}, ReachesIn parent x r k →
      iterP parent k x = r ∧
      ∀ i, i < k → parentOf parent (iterP parent i x) ≠ iterP parent i x := by
  intro x r k h
  induction h with
  | zero a ha => exact ⟨rfl, by intro i hi; omega⟩
  | succ a r k ha tail ih =>
    constructor
    · rw [iterP, Function.iterate_succ_apply]
      exact ih.1
    · intro i hi
      cases i with
      | zero => simpa [iterP] using ha
      | succ i2 =>
        rw [iterP, Function.iterate_succ_apply]
        exact ih.2 i2 (by omega)

theorem iter_fix {parent : List Nat} {r : Nat} (h : parentOf parent r = r) :
    ∀ s, iterP parent s r = r := by
  intro s
  induction s with
  | zero => rfl
  | succ s ih =>
    rw [iterP, Function.iterate_succ_apply', ← iterP]
    rw [ih, h]

theorem iter_nodup {parent : List Nat} {x r k : Nat} (h : ReachesIn parent x r k) :
    ∀ i j, i < j → j ≤ k → iterP parent i x ≠ iterP parent j x := by
  intro i j hij hjk heq
  obtain ⟨hk, hsteps⟩ := reachesIn_iter h
  have hroot : parentOf parent r = r := reachesIn_root_fix h
  have hcyc : ∀ t, iterP parent (i + t * (j - i)) x = iterP parent i x := by
    intro t
    induction t with
    | zero => simp
    | succ t ih =>
      have key : iterP parent ((j - i) + (i + t * (j - i))) x
          = iterP parent (j - i) (iterP parent (i + t * (j - i)) x) := by
        simp [iterP, Function.iterate_add_apply]
      have harith : i + (t + 1) * (j - i) = (j - i) + (i + t * (j - i)) := by ring
      rw [harith, key, ih]
      have key2 : iterP parent (j - i) (iterP parent i x) = iterP parent ((j - i) + i) x := by
        simp [iterP, Function.iterate_add_apply]
      have harith2 : (j - i) + i = j := by omega
      rw [key2, harith2]
      exact heq.symm
  have hbig : iterP parent (i + (k + 1) * (j - i)) x = r := by
    have h1 : 1 ≤ j - i := by omega
    have h2 : (k + 1) * 1 ≤ (k + 1) * (j - i) := Nat.mul_le_mul_left (k + 1) h1
    have hge : k ≤ i + (k + 1) * (j - i) := by omega
    have harith : i + (k + 1) * (j - i) = (i + (k + 1) * (j - i) - k) + k := by omega
    have key : iterP parent ((i + (k + 1) * (j - i) - k) + k) x
        = iterP parent (i + (k + 1) * (j - i) - k) (iterP parent k x) := by
      simp [iterP, Function.iterate_add_apply]
    rw [harith, key, hk]
    exact iter_fix hroot _
  rw [hcyc (k + 1)] at hbig
  have := hsteps i (by omega)
  rw [hbig] at this
  exact this hroot

theorem reachesIn_le_length {parent : List Nat} {x r k : Nat}
    (h : ReachesIn parent x r k) : k ≤ parent.length := by
  obtain ⟨hk, hsteps⟩ := reachesIn_iter h
  have hmem : ∀ i, i < k → iterP parent (i + 1) x ∈ parent := by
    intro i hi
    have hne := hsteps i hi
    have hlt : iterP parent i x < parent.length := by
      by_contra hge
      have : parentOf parent (iterP parent i x) = iterP parent i x := by
        unfold parentOf
        rw [List.getD_eq_getElem?_getD, List.getElem?_eq_none (by omega)]
        rfl
      exact hne this
    have : iterP parent (i + 1) x = parentOf parent (iterP parent i x) := by
      rw [iterP, Function.iterate_succ_apply', ← iterP]
    rw [this]
    unfold parentOf
    rw [List.getD_eq_getElem?_getD, List.getElem?_eq_getElem hlt]
    exact List.getElem_mem hlt
  have hnodup : ((List.range k).map (fun i => iterP parent (i + 1) x)).Nodup := by
    refine List.Nodup.map_on ?_ (List.nodup_range k)
    intro a ha b hb hab
    by_contra hne
    rcases Nat.lt_or_ge a b with hlt | hge
    · exact iter_nodup h (a + 1) (b + 1) (by omega)
        (by simp at hb; omega) hab
    · have hlt2 : b < a := by omega
      exact iter_nodup h (b + 1) (a + 1) (by omega)
        (by simp at ha; omega) hab.symm
  have hsub : ∀ y ∈ (List.range k).map (fun i => iterP parent (i + 1) x), y ∈ parent := by
    intro y hy
    obtain ⟨i, hi, hiy⟩ := List.mem_map.mp hy
    simp at hi
    exact hiy ▸ hmem i hi
  calc k = ((List.range k).map (fun i => iterP parent (i + 1) x)).length := by simp
    _ = ((List.range k).map (fun i => iterP parent (i + 1) x)).toFinset.card :=
      (List.toFinset_card_of_nodup hnodup).symm
    _ ≤ parent.toFinset.card := by
        apply Finset.card_le_card
        intro y hy
        rw [List.mem_toFinset] at hy ⊢
        exact hsub y hy
    _ ≤ parent.length := parent.toFinset_card_le

theorem rootOf_unique {parent : List Nat} {x r r' : Nat}
    (h1 : RootOf parent x r) (h2 : RootOf parent x r') : r = r' := by
  obtain ⟨k1, hk1⟩ := h1
  obtain ⟨k2, hk2⟩ := h2
  exact (reachesIn_unique hk1 hk2).1

theorem lt_length_of_parentOf_ne {parent : List Nat} {x : Nat}
    (hx : parentOf parent x ≠ x) : x < parent.length := by
  by_contra hge
  apply hx
  unfold parentOf
  rw [List.getD_eq_getElem?_getD, List.getElem?_eq_none (by omega)]
  rfl

theorem parentOf_mem {parent : List Nat} {x : Nat} (h : x < parent.length) :
    parentOf parent x ∈ parent := by
  unfold parentOf
  rw [List.getD_eq_getElem?_getD, List.getElem?_eq_getElem h]
  exact List.getElem_mem h

theorem parentOf_set_ne {parent : List Nat} {x v y : Nat} (h : y ≠ x) :
    parentOf (parent.set x v) y = parentOf parent y := by
  unfold parentOf
  rw [List.getD_eq_getElem?_getD, List.getD_eq_getElem?_getD,
    List.getElem?_set_ne (fun hc => h hc.symm)]

theorem parentOf_set_self {parent : List Nat} {x v : Nat} (hlt : x < parent.length) :
    parentOf (parent.set x v) x = v := by
  unfold parentOf
  rw [List.getD_eq_getElem?_getD, List.getElem?_set_self hlt]
  rfl

theorem bounded_set {parent : List Nat} {x v : Nat} (hb : Bounded parent)
    (hv : v < parent.length) : Bounded (parent.set x v) := by
  intro w hw
  rw [List.length_set]
  obtain ⟨i, hi, hgi⟩ := List.getElem_of_mem hw
  rw [List.length_set] at hi
  by_cases hix : i = x
  · subst hix
    rw [List.getElem_set_self] at hgi
    omega
  · rw [List.getElem_set_ne (fun hc => hix hc.symm)] at hgi
    exact hb w (hgi ▸ List.getElem_mem hi)

theorem reachesIn_lt_length {parent : List Nat} (hb : Bounded parent) :
    ∀ {x r k : Nat}, ReachesIn parent x r k → x < parent.length → r < parent.length := by
  intro x r k h
  induction h with
  | zero a ha => exact fun hx => hx
  | succ a r k ha tail ih =>
    intro _
    have hlt : a < parent.length := lt_length_of_parentOf_ne ha
    exact ih (hb _ (parentOf_mem hlt))

theorem reachesIn_step {parent : List Nat} {y s m : Nat} (h : ReachesIn parent y s m)
    (hy : parentOf parent y ≠ y) :
    ∃ m2, m = m2 + 1 ∧ ReachesIn parent (parentOf parent y) s m2 :=
  match h with
  | .zero _ ha => absurd ha hy
  | .succ _ _ k ha tail => ⟨k, rfl, tail⟩

theorem reachesIn_of_root {parent : List Nat} {y s m : Nat} (h : ReachesIn parent y s m)
    (hy : parentOf parent y = y) : s = y ∧ m = 0 := by
  have h0 : ReachesIn parent y y 0 := ReachesIn.zero y hy
  obtain ⟨h1, h2⟩ := reachesIn_unique h h0
  exact ⟨h1, h2⟩

/-- Path halving (`parent[x] = parent[parent[x]]`) preserves every node's
root, never lengthening its path. -/
theorem halve_step {parent : List Nat} {x : Nat} (hx : parentOf parent x ≠ x) :
    ∀ {m y s : Nat}, ReachesIn parent y s m →
      ∃ m' ≤ m, ReachesIn (parent.set x (parentOf parent (parentOf parent x))) y s m' := by
  have hxlt : x < parent.length := lt_length_of_parentOf_ne hx
  intro m
  induction m using Nat.strong_induction_on with
  | _ m ih =>
    intro y s hre
    by_cases hyx : y = x
    · subst hyx
      obtain ⟨m1, hm1, hre1⟩ := reachesIn_step hre hx
      by_cases hpxroot : parentOf parent (parentOf parent y) = parentOf parent y
      · obtain ⟨hs, hm10⟩ := reachesIn_of_root hre1 hpxroot
        subst hs
        refine ⟨1, by omega, ?_⟩
        apply ReachesIn.succ
        · rw [parentOf_set_self hxlt, hpxroot]
          exact hx
        · rw [parentOf_set_self hxlt, hpxroot]
          exact ReachesIn.zero _ (by rw [parentOf_set_ne hx]; exact hpxroot)
      · obtain ⟨m2, hm2, hre2⟩ := reachesIn_step hre1 hpxroot
        have hgx : parentOf parent (parentOf parent y) ≠ y := by
          intro hcontra
          have hshort : ReachesIn parent y s m2 := hcontra ▸ hre2
          have := (reachesIn_unique hre hshort).2
          omega
        obtain ⟨m3, hm3, hre3⟩ := ih m2 (by omega) hre2
        refine ⟨m3 + 1, by omega, ?_⟩
        apply ReachesIn.succ
        · rw [parentOf_set_self hxlt]
          exact hgx
        · rw [parentOf_set_self hxlt]
          exact hre3
    · by_cases hyroot : parentOf parent y = y
      · obtain ⟨hs, hm0⟩ := reachesIn_of_root hre hyroot
        refine ⟨0, by omega, ?_⟩
        rw [hs]
        exact ReachesIn.zero y (by rw [parentOf_set_ne hyx]; exact hyroot)
      · obtain ⟨m1, hm1, hre1⟩ := reachesIn_step hre hyroot
        obtain ⟨m2, hm2, hre2⟩ := ih m1 (by omega) hre1
        refine ⟨m2 + 1, by omega, ?_⟩
        apply ReachesIn.succ
        · rw [parentOf_set_ne hyx]
          exact hyroot
        · rw [parentOf_set_ne hyx]
          exact hre2

/-- `parent[ri] = rj` on roots `ri ≠ rj` maps every root `ri` to `rj` and
leaves other roots unchanged. -/
theorem union_step {parent : List Nat} {ri rj : Nat}
    (hri : parentOf parent ri = ri) (hrj : parentOf parent rj = rj)
    (hne : ri ≠ rj) (hlt : ri < parent.length) :
    ∀ {y s m : Nat}, ReachesIn parent y s m →
      ∃ m', ReachesIn (parent.set ri rj) y (if s = ri then rj else s) m' := by
  intro y s m hre
  induction hre with
  | zero a ha =>
    by_cases hari : a = ri
    · subst hari
      refine ⟨1, ?_⟩
      rw [if_pos rfl]
      apply ReachesIn.succ
      · rw [parentOf_set_self hlt]
        exact fun h => hne h.symm
      · rw [parentOf_set_self hlt]
        exact ReachesIn.zero rj (by rw [parentOf_set_ne (fun h => hne h.symm)]; exact hrj)
    · exact ⟨0, by rw [if_neg hari]
                   exact ReachesIn.zero a (by rw [parentOf_set_ne hari]; exact ha)⟩
  | succ a s k ha tail ih =>
    have hari : a ≠ ri := fun h => ha (h ▸ hri)
    obtain ⟨m', hre'⟩ := ih
    refine ⟨m' + 1, ?_⟩
    apply ReachesIn.succ
    · rw [parentOf_set_ne hari]
      exact ha
    · rw [parentOf_set_ne hari]
      exact hre'

/-- `findAux` with sufficient fuel returns the root, keeps the array
length, preserves every node's root, and preserves boundedness. -/
theorem findAux_spec :
    ∀ (fuel : Nat) (parent : List Nat) (x r k : Nat), ReachesIn parent x r k → k ≤ fuel →
      (findAux fuel parent x).2 = r ∧
      (findAux fuel parent x).1.length = parent.length ∧
      (∀ y s, RootOf parent y s → RootOf (findAux fuel parent x).1 y s) ∧
      (Bounded parent → Bounded (findAux fuel parent x).1) := by
  intro fuel
  induction fuel with
  | zero =>
    intro parent x r k hre hk
    have hk0 : k = 0 := by omega
    subst hk0
    have hrx : x = r := (reachesIn_iter hre).1
    exact ⟨hrx.symm ▸ rfl, rfl, fun y s hs => hs, fun hb => hb⟩
  | succ f ih =>
    intro parent x r k hre hk
    by_cases hpx : parentOf parent x = x
    · obtain ⟨hs, hk0⟩ := reachesIn_of_root hre hpx
      have heq : findAux (f + 1) parent x = (parent, x) := by
        simp [findAux, hpx]
      rw [heq]
      exact ⟨hs.symm, rfl, fun y s h => h, fun hb => hb⟩
    · have heq : findAux (f + 1) parent x =
          findAux f (parent.set x (parentOf parent (parentOf parent x)))
            (parentOf parent (parentOf parent x)) := by
        simp [findAux, hpx]
      obtain ⟨m1, hm1, hre1⟩ := reachesIn_step hre hpx
      have hgp : ∃ m2, m2 ≤ m1 ∧ ReachesIn parent (parentOf parent (parentOf parent x)) r m2 := by
        by_cases hpr : parentOf parent (parentOf parent x) = parentOf parent x
        · obtain ⟨hr, _⟩ := reachesIn_of_root hre1 hpr
          refine ⟨0, by omega, ?_⟩
          rw [hpr, hr]
          exact ReachesIn.zero _ hpr
        · obtain ⟨m2, hm2, hre2⟩ := reachesIn_step hre1 hpr
          exact ⟨m2, by omega, hre2⟩
      obtain ⟨m2, hm2le, hre2⟩ := hgp
      obtain ⟨m3, hm3le, hre3⟩ := halve_step hpx hre2
      obtain ⟨c1, c2, c3, c4⟩ := ih (parent.set x (parentOf parent (parentOf parent x)))
        (parentOf parent (parentOf parent x)) r m3 hre3 (by omega)
      rw [heq]
      refine ⟨c1, by rw [c2, List.length_set], ?_, ?_⟩
      · intro y s hs
        obtain ⟨ky, hky⟩ := hs
        obtain ⟨ky2, _, hky2⟩ := halve_step hpx hky
        exact c3 y s ⟨ky2, hky2⟩
      · intro hb
        apply c4
        apply bounded_set hb
        have hxlt := lt_length_of_parentOf_ne hpx
        have hpxlt : parentOf parent x < parent.length := hb _ (parentOf_mem hxlt)
        exact hb _ (parentOf_mem hpxlt)

theorem rooted_of_rootOf_pres {parent parent2 : List Nat} (hr : Rooted parent)
    (hpres : ∀ y s, RootOf parent y s → RootOf parent2 y s) : Rooted parent2 := by
  intro y
  obtain ⟨s, k, hk⟩ := hr y
  obtain ⟨k2, hk2⟩ := hpres y s ⟨k, hk⟩
  exact ⟨s, k2, hk2⟩

/-- `ufFind` — `findAux` at fuel `parent.length` — in terms of the caller's
view. -/
theorem ufFind_spec (parent : List Nat) (x r k : Nat) (hre : ReachesIn parent x r k) :
    (ufFind parent x).2 = r ∧ (ufFind parent x).1.length = parent.length ∧
    (∀ y s, RootOf parent y s → RootOf (ufFind parent x).1 y s) ∧
    (Bounded parent → Bounded (ufFind parent x).1) :=
  findAux_spec parent.length parent x r k hre (reachesIn_le_length hre)

/-- One union step: the array keeps its length and invariants, existing
same-class relations persist, and `i` and `j` end in the same class. -/
theorem unionOne_spec (parent : List Nat) (i j : Nat) (hr : Rooted parent)
    (hb : Bounded parent) (hi : i < parent.length) (hj : j < parent.length) :
    (unionOne parent i j).length = parent.length ∧
    Rooted (unionOne parent i j) ∧ Bounded (unionOne parent i j) ∧
    (∀ a b, RootEq parent a b → RootEq (unionOne parent i j) a b) ∧
    RootEq (unionOne parent i j) i j := by
  obtain ⟨ri, ki, hrei⟩ := hr i
  obtain ⟨f1, f2, f3, f4⟩ := ufFind_spec parent i ri ki hrei
  have hr1 : Rooted (ufFind parent i).1 := rooted_of_rootOf_pres hr f3
  obtain ⟨rj, kj, hrej⟩ := hr1 j
  obtain ⟨g1, g2, g3, g4⟩ := ufFind_spec (ufFind parent i).1 j rj kj hrej
  have hri2 : RootOf (ufFind (ufFind parent i).1 j).1 i ri := g3 i ri (f3 i ri ⟨ki, hrei⟩)
  have hrj2 : RootOf (ufFind (ufFind parent i).1 j).1 j rj := g3 j rj ⟨kj, hrej⟩
  have hfixi : parentOf (ufFind (ufFind parent i).1 j).1 ri = ri := by
    obtain ⟨k2, hk2⟩ := hri2
    exact reachesIn_root_fix hk2
  have hfixj : parentOf (ufFind (ufFind parent i).1 j).1 rj = rj := by
    obtain ⟨k2, hk2⟩ := hrj2
    exact reachesIn_root_fix hk2
  have hlen2 : (ufFind (ufFind parent i).1 j).1.length = parent.length := by
    rw [g2, f2]
  have hrilt : ri < (ufFind (ufFind parent i).1 j).1.length := by
    rw [hlen2]
    exact reachesIn_lt_length hb hrei hi
  have hrjlt : rj < (ufFind (ufFind parent i).1 j).1.length := by
    rw [hlen2]
    have hb1 : Bounded (ufFind parent i).1 := f4 hb
    have := reachesIn_lt_length hb1 hrej (by rw [f2]; exact hj)
    rw [f2] at this
    exact this
  have hrooted2 : Rooted (ufFind (ufFind parent i).1 j).1 :=
    rooted_of_rootOf_pres hr1 g3
  have hb2 : Bounded (ufFind (ufFind parent i).1 j).1 := g4 (f4 hb)
  have hpres12 : ∀ y s, RootOf parent y s → RootOf (ufFind (ufFind parent i).1 j).1 y s :=
    fun y s hs => g3 y s (f3 y s hs)
  have hdef : unionOne parent i j =
      (if (ufFind parent i).2 ≠ (ufFind (ufFind parent i).1 j).2 then
        (ufFind (ufFind parent i).1 j).1.set (ufFind parent i).2 (ufFind (ufFind parent i).1 j).2
       else (ufFind (ufFind parent i).1 j).1) := rfl
  rw [hdef, f1, g1]
  by_cases hne : ri ≠ rj
  · rw [if_pos hne]
    have hmap : ∀ y s, RootOf (ufFind (ufFind parent i).1 j).1 y s →
        RootOf ((ufFind (ufFind parent i).1 j).1.set ri rj) y (if s = ri then rj else s) := by
      intro y s hs
      obtain ⟨k2, hk2⟩ := hs
      obtain ⟨m', hm'⟩ := union_step hfixi hfixj hne hrilt hk2
      exact ⟨m', hm'⟩
    refine ⟨?_, ?_, ?_, ?_, ?_⟩
    · rw [List.length_set, hlen2]
    · intro y
      obtain ⟨s, k2, hk2⟩ := hrooted2 y
      obtain ⟨m', hm'⟩ := hmap y s ⟨k2, hk2⟩
      exact ⟨_, m', hm'⟩
    · exact bounded_set hb2 hrjlt
    · intro a b hab
      obtain ⟨s, hsa, hsb⟩ := hab
      exact ⟨if s = ri then rj else s, hmap a s (hpres12 a s hsa), hmap b s (hpres12 b s hsb)⟩
    · refine ⟨rj, ?_, ?_⟩
      · have := hmap i ri hri2
        rw [if_pos rfl] at this
        exact this
      · have := hmap j rj hrj2
        rw [if_neg (fun h => hne h.symm)] at this
        exact this
  · rw [if_neg hne]
    push_neg at hne
    refine ⟨hlen2, hrooted2, hb2, fun a b hab => ?_, ?_⟩
    · obtain ⟨s, hsa, hsb⟩ := hab
      exact ⟨s, hpres12 a s hsa, hpres12 b s hsb⟩
    · exact ⟨rj, hne ▸ hri2, hrj2⟩

/-- The union loop establishes the same-class relation for every processed
pair and never separates classes. -/
theorem unionAll_spec :
    ∀ (pairs : List (Nat × Nat)) (parent : List Nat), Rooted parent → Bounded parent →
      (∀ p ∈ pairs, p.1 < parent.length ∧ p.2 < parent.length) →
      (unionAll parent pairs).length = parent.length ∧
      Rooted (unionAll parent pairs) ∧ Bounded (unionAll parent pairs) ∧
      (∀ a b, RootEq parent a b → RootEq (unionAll parent pairs) a b) ∧
      (∀ p ∈ pairs, RootEq (unionAll parent pairs) p.1 p.2) := by
  intro pairs
  induction pairs with
  | nil =>
    intro parent hr hb _
    exact ⟨rfl, hr, hb, fun a b hab => hab, fun p hp => absurd hp (List.not_mem_nil p)⟩
  | cons pr rest ih =>
    intro parent hr hb hbound
    obtain ⟨i, j⟩ := pr
    have hij := hbound (i, j) (List.mem_cons_self _ _)
    obtain ⟨u1, u2, u3, u4, u5⟩ := unionOne_spec parent i j hr hb hij.1 hij.2
    have hbound2 : ∀ p ∈ rest, p.1 < (unionOne parent i j).length ∧
        p.2 < (unionOne parent i j).length := by
      intro p hp
      rw [u1]
      exact hbound p (List.mem_cons_of_mem _ hp)
    obtain ⟨w1, w2, w3, w4, w5⟩ := ih (unionOne parent i j) u2 u3 hbound2
    have hall : unionAll parent ((i, j) :: rest) = unionAll (unionOne parent i j) rest := rfl
    rw [hall]
    refine ⟨by rw [w1, u1], w2, w3, fun a b hab => w4 a b (u4 a b hab), ?_⟩
    intro p hp
    rcases List.mem_cons.mp hp with h1 | h2
    · subst h1
      exact w4 _ _ u5
    · exact w5 p h2

/-- `i` is recorded in the bucket keyed `r`. -/
def InBucket (buckets : List (Nat × List Nat)) (r i : Nat) : Prop :=
  ∃ l, (r, l) ∈ buckets ∧ i ∈ l

theorem addToBucket_self (buckets : List (Nat × List Nat)) (r i : Nat) :
    InBucket (addToBucket buckets r i) r i := by
  induction buckets with
  | nil => exact ⟨[i], by simp [addToBucket], by simp⟩
  | cons hd rest ih =>
    obtain ⟨r2, l2⟩ := hd
    by_cases h : r2 = r
    · subst h
      exact ⟨l2 ++ [i], by simp [addToBucket], by simp⟩
    · obtain ⟨l, hmem, hin⟩ := ih
      exact ⟨l, by simp only [addToBucket, if_neg h]; exact List.mem_cons_of_mem _ hmem, hin⟩

theorem addToBucket_mono {buckets : List (Nat × List Nat)} {r' i' : Nat}
    (h : InBucket buckets r' i') (r i : Nat) : InBucket (addToBucket buckets r i) r' i' := by
  induction buckets with
  | nil =>
    obtain ⟨l, hmem, _⟩ := h
    cases hmem
  | cons hd rest ih =>
    obtain ⟨r2, l2⟩ := hd
    obtain ⟨l, hmem, hin⟩ := h
    by_cases hr2 : r2 = r
    · subst hr2
      rcases List.mem_cons.mp hmem with h1 | h2
      · obtain ⟨he1, he2⟩ := Prod.mk.injEq .. ▸ h1
        refine ⟨l2 ++ [i], ?_, ?_⟩
        · simp only [addToBucket, if_pos rfl]
          rw [he1]
          exact List.mem_cons_self _ _
        · exact List.mem_append_left _ (he2 ▸ hin)
      · exact ⟨l, by simp only [addToBucket, if_pos rfl]; exact List.mem_cons_of_mem _ h2, hin⟩
    · rcases List.mem_cons.mp hmem with h1 | h2
      · exact ⟨l, by simp only [addToBucket, if_neg hr2]; exact h1 ▸ List.mem_cons_self _ _, hin⟩
      · obtain ⟨l3, hm3, hi3⟩ := ih ⟨l, h2, hin⟩
        exact ⟨l3, by simp only [addToBucket, if_neg hr2]; exact List.mem_cons_of_mem _ hm3, hi3⟩

theorem addToBucket_keys (buckets : List (Nat × List Nat)) (r i : Nat) :
    (addToBucket buckets r i).map Prod.fst =
      if r ∈ buckets.map Prod.fst then buckets.map Prod.fst
      else buckets.map Prod.fst ++ [r] := by
  induction buckets with
  | nil => simp [addToBucket]
  | cons hd rest ih =>
    obtain ⟨r2, l2⟩ := hd
    by_cases h : r2 = r
    · subst h
      simp [addToBucket]
    · simp only [addToBucket, if_neg h, List.map_cons, ih, List.mem_cons]
      have hne : ¬ r = r2 := fun hc => h hc.symm
      by_cases hmem : r ∈ rest.map Prod.fst
      · simp [hmem, hne]
      · simp [hmem, hne]

theorem addToBucket_keys_nodup {buckets : List (Nat × List Nat)}
    (h : (buckets.map Prod.fst).Nodup) (r i : Nat) :
    ((addToBucket buckets r i).map Prod.fst).Nodup := by
  rw [addToBucket_keys]
  by_cases hmem : r ∈ buckets.map Prod.fst
  · rwa [if_pos hmem]
  · rw [if_neg hmem]
    exact h.append (List.nodup_singleton r) (by simpa [List.disjoint_singleton] using hmem)

theorem inBucket_lists_eq {buckets : List (Nat × List Nat)}
    (hnd : (buckets.map Prod.fst).Nodup) {r : Nat} {l1 l2 : List Nat}
    (h1 : (r, l1) ∈ buckets) (h2 : (r, l2) ∈ buckets) : l1 = l2 := by
  induction buckets with
  | nil => cases h1
  | cons hd rest ih =>
    obtain ⟨r2, lh⟩ := hd
    simp only [List.map_cons, List.nodup_cons] at hnd
    rcases List.mem_cons.mp h1 with ha | ha <;> rcases List.mem_cons.mp h2 with hb | hb
    · obtain ⟨_, e1⟩ := Prod.mk.injEq .. ▸ ha
      obtain ⟨_, e2⟩ := Prod.mk.injEq .. ▸ hb
      exact e1.trans e2.symm
    · obtain ⟨e0, _⟩ := Prod.mk.injEq .. ▸ ha
      exact absurd (e0 ▸ List.mem_map_of_mem Prod.fst hb) hnd.1
    · obtain ⟨e0, _⟩ := Prod.mk.injEq .. ▸ hb
      exact absurd (e0 ▸ List.mem_map_of_mem Prod.fst ha) hnd.1
    · exact ih hnd.2 ha hb

theorem groupAll_preserves :
    ∀ (idxs : List Nat) (parent : List Nat) (buckets : List (Nat × List Nat)) (r i : Nat),
      InBucket buckets r i → InBucket (groupAll parent buckets idxs).2 r i := by
  intro idxs
  induction idxs with
  | nil => exact fun parent buckets r i h => h
  | cons j rest ih =>
    intro parent buckets r i h
    exact ih (ufFind parent j).1 (addToBucket buckets (ufFind parent j).2 j) r i
      (addToBucket_mono h _ j)

theorem groupAll_keys_nodup :
    ∀ (idxs : List Nat) (parent : List Nat) (buckets : List (Nat × List Nat)),
      (buckets.map Prod.fst).Nodup →
      (((groupAll parent buckets idxs).2).map Prod.fst).Nodup := by
  intro idxs
  induction idxs with
  | nil => exact fun parent buckets h => h
  | cons j rest ih =>
    intro parent buckets h
    exact ih (ufFind parent j).1 _ (addToBucket_keys_nodup h _ j)

theorem groupAll_inserts :
    ∀ (idxs : List Nat) (parent : List Nat) (buckets : List (Nat × List Nat)),
      Rooted parent → Bounded parent →
      ∀ i ∈ idxs, ∀ r, RootOf parent i r → InBucket (groupAll parent buckets idxs).2 r i := by
  intro idxs
  induction idxs with
  | nil =>
    intro parent buckets _ _ i hi
    cases hi
  | cons j rest ih =>
    intro parent buckets hr hb i hi r hroot
    obtain ⟨rj, kj, hrej⟩ := hr j
    obtain ⟨f1, f2, f3, f4⟩ := ufFind_spec parent j rj kj hrej
    have hr2 : Rooted (ufFind parent j).1 := rooted_of_rootOf_pres hr f3
    have hb2 : Bounded (ufFind parent j).1 := by
      intro v hv
      rw [f2]
      have := f4 hb v hv
      rwa [f2] at this
    rcases List.mem_cons.mp hi with h1 | h2
    · subst h1
      have hreq : r = rj := rootOf_unique hroot ⟨kj, hrej⟩
      have hstep : InBucket (addToBucket buckets (ufFind parent i).2 i) r i := by
        rw [f1, hreq]
        exact addToBucket_self buckets rj i
      exact groupAll_preserves rest (ufFind parent i).1 _ r i hstep
    · exact ih (ufFind parent j).1 _ hr2 (f4 hb) i h2 r (f3 i r hroot)

theorem two_le_length_of_mem_ne {α : Type} {l : List α} {a b : α}
    (ha : a ∈ l) (hb : b ∈ l) (h : a ≠ b) : 2 ≤ l.length := by
  cases l with
  | nil => cases ha
  | cons x t =>
    cases t with
    | nil =>
      simp only [List.mem_singleton] at ha hb
      exact absurd (ha.trans hb.symm) h
    | cons y u => simp

/-- Indices with a common root in the post-union parent array land in one
common group of `unionFind`. -/
theorem unionFind_same_group {n : Nat} {pairs : List (Nat × Nat)} {i j r : Nat}
    (hi : i < n) (hj : j < n)
    (hri : RootOf (unionAll (List.range n) pairs) i r)
    (hrj : RootOf (unionAll (List.range n) pairs) j r)
    (hr : Rooted (unionAll (List.range n) pairs))
    (hb : Bounded (unionAll (List.range n) pairs)) :
    ∃ l ∈ unionFind n pairs, i ∈ l ∧ j ∈ l := by
  have hmi := groupAll_inserts (List.range n) (unionAll (List.range n) pairs) [] hr hb
    i (List.mem_range.mpr hi) r hri
  have hmj := groupAll_inserts (List.range n) (unionAll (List.range n) pairs) [] hr hb
    j (List.mem_range.mpr hj) r hrj
  have hnd := groupAll_keys_nodup (List.range n) (unionAll (List.range n) pairs) []
    List.nodup_nil
  obtain ⟨l1, hml1, hil1⟩ := hmi
  obtain ⟨l2, hml2, hjl2⟩ := hmj
  have hleq : l1 = l2 := inBucket_lists_eq hnd hml1 hml2
  subst hleq
  exact ⟨l1, List.mem_map_of_mem Prod.snd hml1, hil1, hjl2⟩

theorem rootEq_refl {parent : List Nat} (hr : Rooted parent) (a : Nat) :
    RootEq parent a a := by
  obtain ⟨r, k, hk⟩ := hr a
  exact ⟨r, ⟨k, hk⟩, ⟨k, hk⟩⟩

theorem rootEq_symm {parent : List Nat} {a b : Nat} (h : RootEq parent a b) :
    RootEq parent b a := by
  obtain ⟨r, h1, h2⟩ := h
  exact ⟨r, h2, h1⟩

theorem rootEq_trans {parent : List Nat} {a b c : Nat} (h1 : RootEq parent a b)
    (h2 : RootEq parent b c) : RootEq parent a c := by
  obtain ⟨r, ha, hb⟩ := h1
  obtain ⟨r2, hb2, hc⟩ := h2
  have : r = r2 := rootOf_unique hb hb2
  exact ⟨r, ha, this ▸ hc⟩

theorem rooted_range (n : Nat) : Rooted (List.range n) := by
  intro x
  refine ⟨x, 0, ReachesIn.zero x ?_⟩
  unfold parentOf
  by_cases h : x < n
  · rw [List.getD_eq_getElem?_getD, List.getElem?_eq_getElem (by simpa using h)]
    simp
  · rw [List.getD_eq_getElem?_getD, List.getElem?_eq_none (by simpa using h)]
    rfl

theorem bounded_range (n : Nat) : Bounded (List.range n) := by
  intro v hv
  rw [List.length_range]
  exact List.mem_range.mp hv

end Clustering

theorem dot_comm (v w : List ℚ) : dot v w = dot w v := by
  unfold dot
  rw [List.zipWith_comm_of_comm]
  intro x y
  ring

theorem clusterPairs_mem (encodeFn : Json → List ℚ) (threshold : ℚ)
    (entities : List RecordedEntity) (i j : Nat) :
    (i, j) ∈ clusterPairs encodeFn threshold entities ↔
      i < j ∧ j < (clusterFiltered entities).length ∧
      threshold ≤ dot ((clusterEmbeddings encodeFn entities).getD i [])
        ((clusterEmbeddings encodeFn entities).getD j []) := by
  simp only [clusterPairs, List.mem_flatMap, List.mem_map, List.mem_filter, List.mem_range,
    decide_eq_true_eq, Prod.mk.injEq]
  constructor
  · rintro ⟨a, ha, b, ⟨hb, hab, hsim⟩, he1, he2⟩
    subst he1
    subst he2
    exact ⟨hab, hb, hsim⟩
  · rintro ⟨h1, h2, h3⟩
    exact ⟨i, by omega, j, ⟨h2, h1, h3⟩, rfl, rfl⟩

/-- Indices `i` and `j` of the filtered entity list are distinct and their
task-description embeddings have similarity at or above the threshold:
the hypothesis of the C5 claim on one pair. -/
def SimStep (encodeFn : Json → List ℚ) (threshold : ℚ)
    (entities : List RecordedEntity) (i j : Nat) : Prop :=
  i ≠ j ∧ i < (clusterFiltered entities).length ∧ j < (clusterFiltered entities).length ∧
  threshold ≤ dot ((clusterEmbeddings encodeFn entities).getD i [])
    ((clusterEmbeddings encodeFn entities).getD j [])

theorem simStep_rootEq (encodeFn : Json → List ℚ) (threshold : ℚ)
    (entities : List RecordedEntity) {i j : Nat}
    (h : SimStep encodeFn threshold entities i j) :
    Clustering.RootEq
      (Clustering.unionAll (List.range (clusterFiltered entities).length)
        (clusterPairs encodeFn threshold entities)) i j := by
  obtain ⟨hne, hi, hj, hsim⟩ := h
  have hbounds : ∀ p ∈ clusterPairs encodeFn threshold entities,
      p.1 < (List.range (clusterFiltered entities).length).length ∧
      p.2 < (List.range (clusterFiltered entities).length).length := by
    intro p hp
    obtain ⟨h1, h2, _⟩ := (clusterPairs_mem encodeFn threshold entities p.1 p.2).mp hp
    rw [List.length_range]
    exact ⟨by omega, h2⟩
  obtain ⟨hlen, hrooted, hbound, hpres, hpairs⟩ :=
    Clustering.unionAll_spec (clusterPairs encodeFn threshold entities)
      (List.range (clusterFiltered entities).length)
      (Clustering.rooted_range _) (Clustering.bounded_range _) hbounds
  rcases Nat.lt_or_ge i j with hij | hij
  · exact hpairs (i, j) ((clusterPairs_mem encodeFn threshold entities i j).mpr ⟨hij, hj, hsim⟩)
  · have hji : j < i := by omega
    exact Clustering.rootEq_symm (hpairs (j, i)
      ((clusterPairs_mem encodeFn threshold entities j i).mpr
        ⟨hji, hi, by rwa [dot_comm] at hsim⟩))

theorem simChain_bounds (encodeFn : Json → List ℚ) (threshold : ℚ)
    (entities : List RecordedEntity) {i j : Nat}
    (h : Relation.ReflTransGen (SimStep encodeFn threshold entities) i j) (hne : i ≠ j) :
    i < (clusterFiltered entities).length ∧ j < (clusterFiltered entities).length := by
  revert hne
  induction h with
  | refl => exact fun hne => absurd rfl hne
  | @tail b c h1 h2 ih =>
    intro _
    obtain ⟨hne2, hb_lt, hc_lt, _⟩ := h2
    refine ⟨?_, hc_lt⟩
    by_cases hib : i = b
    · exact hib ▸ hb_lt
    · exact (ih hib).1

theorem simChain_rootEq (encodeFn : Json → List ℚ) (threshold : ℚ)
    (entities : List RecordedEntity) {i j : Nat}
    (h : Relation.ReflTransGen (SimStep encodeFn threshold entities) i j) :
    Clustering.RootEq
      (Clustering.unionAll (List.range (clusterFiltered entities).length)
        (clusterPairs encodeFn threshold entities)) i j := by
  have hbounds : ∀ p ∈ clusterPairs encodeFn threshold entities,
      p.1 < (List.range (clusterFiltered entities).length).length ∧
      p.2 < (List.range (clusterFiltered entities).length).length := by
    intro p hp
    obtain ⟨h1, h2, _⟩ := (clusterPairs_mem encodeFn threshold entities p.1 p.2).mp hp
    rw [List.length_range]
    exact ⟨by omega, h2⟩
  obtain ⟨hlen, hrooted, hbound, hpres, hpairs⟩ :=
    Clustering.unionAll_spec (clusterPairs encodeFn threshold entities)
      (List.range (clusterFiltered entities).length)
      (Clustering.rooted_range _) (Clustering.bounded_range _) hbounds
  induction h with
  | refl => exact Clustering.rootEq_refl hrooted i
  | @tail b c h1 h2 ih =>
    exact Clustering.rootEq_trans ih (simStep_rootEq encodeFn threshold entities h2)

/-- The namespace document of C3: one stored entity with id `1`, string
content `old` and metadata mapping `source` to `review`. -/
def c3Store : FsStore :=
  [("demo", ⟨"demo", "t0",
    [⟨"1", "note", .str "old", "t0", some [("source", .str "review")]⟩], 2, 1⟩)]

/-- C3 (observed behaviour): applying a resolver `UPDATE` event for an
existing id replaces the stored content as claimed, but also overwrites the
stored metadata with the event's metadata (`filesystem.py` line 192) — here
erasing the stored `source` entry to `None` — contradicting the claim that
metadata is left unchanged. -/
theorem C3_update_event_overwrites_metadata :
    (FilesystemBackend.update_entities c3Store "demo" [⟨.str "new", none, "note"⟩] true
        [⟨"1", "note", .str "new", .UPDATE, none, none⟩] "t1").1 =
      [("demo", ⟨"demo", "t0", [⟨"1", "note", .str "new", "t1", none⟩], 2, 1⟩)] ∧
    (c3Store.lookup "demo").map (fun d => d.entities.map (fun e => e.metadata)) =
      some [some [("source", .str "review")]] ∧
    (none : Option Metadata) ≠ some [("source", .str "review")] := by
  refine ⟨by decide, by decide, by decide⟩

/-- C5: (1) any two distinct filtered entities whose embeddings reach the
threshold — equality included — land in one common cluster of
`cluster_entities`; (2) same-cluster membership is transitively closed:
any chain of above-threshold pairs puts its two endpoints in one common
cluster; (3) every returned cluster has at least two members (singleton
clusters are excluded). -/
theorem C5_clustering_threshold_transitive (encodeFn : Json → List ℚ) (threshold : ℚ)
    (entities : List RecordedEntity)
    (hlen : 2 ≤ (entities.filter hasTaskDescription).length) :
    (∀ i j, SimStep encodeFn threshold entities i j →
      ∃ C ∈ cluster_entities encodeFn threshold entities,
        (clusterFiltered entities).getD i default ∈ C ∧
        (clusterFiltered entities).getD j default ∈ C) ∧
    (∀ i j, Relation.ReflTransGen (SimStep encodeFn threshold entities) i j → i ≠ j →
      ∃ C ∈ cluster_entities encodeFn threshold entities,
        (clusterFiltered entities).getD i default ∈ C ∧
        (clusterFiltered entities).getD j default ∈ C) ∧
    (∀ C ∈ cluster_entities encodeFn threshold entities, 2 ≤ C.length) := by
  have hkey : ∀ i j, Relation.ReflTransGen (SimStep encodeFn threshold entities) i j →
      i ≠ j →
      ∃ C ∈ cluster_entities encodeFn threshold entities,
        (clusterFiltered entities).getD i default ∈ C ∧
        (clusterFiltered entities).getD j default ∈ C := by
    intro i j hchain hne
    obtain ⟨hi, hj⟩ := simChain_bounds encodeFn threshold entities hchain hne
    obtain ⟨r, hri, hrj⟩ := simChain_rootEq encodeFn threshold entities hchain
    have hbounds : ∀ p ∈ clusterPairs encodeFn threshold entities,
        p.1 < (List.range (clusterFiltered entities).length).length ∧
        p.2 < (List.range (clusterFiltered entities).length).length := by
      intro p hp
      obtain ⟨h1, h2, _⟩ := (clusterPairs_mem encodeFn threshold entities p.1 p.2).mp hp
      rw [List.length_range]
      exact ⟨by omega, h2⟩
    obtain ⟨hlen2, hrooted, hbound, _, _⟩ :=
      Clustering.unionAll_spec (clusterPairs encodeFn threshold entities)
        (List.range (clusterFiltered entities).length)
        (Clustering.rooted_range _) (Clustering.bounded_range _) hbounds
    obtain ⟨l, hl, hil, hjl⟩ :=
      Clustering.unionFind_same_group hi hj hri hrj hrooted hbound
    have h2le : 2 ≤ l.length := Clustering.two_le_length_of_mem_ne hil hjl hne
    refine ⟨l.map (fun k => (clusterFiltered entities).getD k default), ?_, ?_, ?_⟩
    · unfold cluster_entities
      rw [if_neg (by omega)]
      refine List.mem_map_of_mem _ ?_
      exact List.mem_filter.mpr ⟨hl, by simp only [decide_eq_true_eq]; omega⟩
    · exact List.mem_map_of_mem _ hil
    · exact List.mem_map_of_mem _ hjl
  refine ⟨fun i j h => hkey i j (Relation.ReflTransGen.single h) h.1, hkey, ?_⟩
  intro C hC
  unfold cluster_entities at hC
  rw [if_neg (by omega)] at hC
  obtain ⟨g, hg, rfl⟩ := List.mem_map.mp hC
  have hgf := (List.mem_filter.mp hg).2
  simp only [decide_eq_true_eq] at hgf
  rw [List.length_map]
  omega

/-- First concrete entity of the C5 witness: carries a truthy
`task_description`. -/
def c5e1 : RecordedEntity :=
  ⟨"1", "tip", .str "a", "t0", some [("task_description", .str "alpha")]⟩

/-- Second concrete entity of the C5 witness. -/
def c5e2 : RecordedEntity :=
  ⟨"2", "tip", .str "b", "t0", some [("task_description", .str "beta")]⟩

theorem C5_clustering_threshold_transitive_witness :
    ∃ C ∈ cluster_entities (fun _ => [(1 : ℚ)]) 1 [c5e1, c5e2],
      (clusterFiltered [c5e1, c5e2]).getD 0 default ∈ C ∧
      (clusterFiltered [c5e1, c5e2]).getD 1 default ∈ C :=
  (C5_clustering_threshold_transitive (fun _ => [(1 : ℚ)]) 1 [c5e1, c5e2]
      (by decide)).1 0 1 (by
    refine ⟨by decide, by decide, by decide, ?_⟩
    have h0 : (clusterEmbeddings (fun _ => [(1 : ℚ)]) [c5e1, c5e2]).getD 0 [] = [1] := rfl
    have h1 : (clusterEmbeddings (fun _ => [(1 : ℚ)]) [c5e1, c5e2]).getD 1 [] = [1] := rfl
    rw [h0, h1]
    unfold dot
    simp)

/-- `DEFAULT_TASK_DESCRIPTION` of `kaizen/schema/tips.py` (line 5). -/
def DEFAULT_TASK_DESCRIPTION : String := "Task description unknown"

/-- `Tip` of `kaizen/schema/tips.py` (lines 8-12). -/
structure Tip where
  content : String
  rationale : String
  category : String
  trigger : String
deriving DecidableEq

/-- `TipGenerationResult` of `kaizen/schema/tips.py` (lines 19-24). -/
structure TipGenerationResult where
  tips : List Tip
  task_description : String
deriving DecidableEq

/-- The `Literal` constraint of `Tip.category`. -/
def tipCategoryOk (s : String) : Bool :=
  s == "strategy" || s == "recovery" || s == "optimization"

/-- Pydantic validation of one `Tip`: the four fields present as strings,
`category` one of the three literals; extra keys are ignored. -/
def tipOfJson (v : Json) : Option Tip :=
  match v with
  | .obj fields =>
    match fields.lookup "content", fields.lookup "rationale",
        fields.lookup "category", fields.lookup "trigger" with
    | some (.str c), some (.str r), some (.str cat), some (.str t) =>
      if tipCategoryOk cat then some ⟨c, r, cat, t⟩ else none
    | _, _, _, _ => none
  | _ => none

def tipsOfJsonList : List Json → Option (List Tip)
  | [] => some []
  | v :: rest =>
    match tipOfJson v, tipsOfJsonList rest with
    | some t, some ts => some (t :: ts)
    | _, _ => none

/-- `TipGenerationResponse.model_validate`: an object with a `tips` list of
valid `Tip` objects; `none` models the raised `ValidationError`. -/
def tipGenerationResponseValidate (v : Json) : Option (List Tip) :=
  match v with
  | .obj fields =>
    match fields.lookup "tips" with
    | some (.arr l) => tipsOfJsonList l
    | _ => none
  | _ => none

/-- `d.get(k)` raising `AttributeError` on a non-dict receiver. -/
def jsonGetE (v : Json) (k : String) : Except PyError (Option Json) :=
  match v with
  | .obj fields => .ok (fields.lookup k)
  | _ => .error (.attributeError "get")

/-- `d[k]`: `KeyError` on a missing key, `TypeError` on a non-dict
receiver. -/
def jsonItem (v : Json) (k : String) : Except PyError Json :=
  match v with
  | .obj fields =>
    match fields.lookup k with
    | some x => .ok x
    | none => .error (.keyError k)
  | _ => .error (.typeError "not subscriptable")

/-- Python's default `str.strip` whitespace set (ASCII fragment). -/
def isPySpace (c : Char) : Bool :=
  c == ' ' || c == '\t' || c == '\n' || c == '\r' || c.toNat == 11 || c.toNat == 12

/-- `s.strip()`. -/
def pyStrip (s : String) : String :=
  String.mk (((s.data.dropWhile isPySpace).reverse.dropWhile isPySpace).reverse)

/-- How a value renders inside an f-string; strings verbatim, other values
through their JSON rendering (standing in for Python's `str()`). -/
def pyFStr (v : Json) : String :=
  match v with
  | .str s => s
  | v => dumps v

/-- One entry of `agent_steps` in `parse_openai_agents_trajectory`. -/
structure AgentStep where
  stype : String
  content : String
  raw : Json
deriving DecidableEq

/-- The dict returned by `parse_openai_agents_trajectory`. -/
structure ParsedTrajectory where
  task_instruction : String
  trajectory_summary : String
  function_calls : List Json
  num_steps : Nat
deriving DecidableEq

/-- `", ".join(f"\x7bk\x7d=\x7bjson.dumps(v)\x7d" for k, v in args.items())`. -/
def argsDisplay (fields : List (String × Json)) : String :=
  String.intercalate ", " (fields.map (fun kv => kv.1 ++ "=" ++ dumps kv.2))

/-- The inner `for assistant_response in content` loop of
`parse_openai_agents_trajectory` (tips.py lines 50-78). -/
def processAssistantList : List Json → List AgentStep → List Json →
    Except PyError (List AgentStep × List Json)
  | [], steps, fcs => .ok (steps, fcs)
  | ar :: rest, steps, fcs =>
    match jsonItem ar "type" with
    | .error e => .error e
    | .ok t =>
      if t = .str "function_call" then
        match jsonItem ar "function" with
        | .error e => .error e
        | .ok f =>
          match jsonItem f "name" with
          | .error e => .error e
          | .ok name =>
            match jsonItem f "arguments" with
            | .error e => .error e
            | .ok argsv =>
              match jsonItem ar "id" with
              | .error e => .error e
              | .ok callId =>
                let fc : Json := .obj [("type", .str "function_call"), ("name", name),
                  ("arguments", argsv), ("call_id", callId), ("raw", ar)]
                match argsv with
                | .str argsStr =>
                  match loads argsStr with
                  | some (.obj argFields) =>
                    processAssistantList rest
                      (steps ++ [⟨"action",
                        pyFStr name ++ "(" ++ argsDisplay argFields ++ ")", ar⟩])
                      (fcs ++ [fc])
                  | some _ => .error (.attributeError "items")
                  | none =>
                    processAssistantList rest
                      (steps ++ [⟨"action", pyFStr name ++ "(" ++ argsStr ++ ")", ar⟩])
                      (fcs ++ [fc])
                | _ => .error (.typeError "the JSON object must be str")
      else
        .error (.kaizenException
          ("Unhandled assistant content type in list `" ++ pyFStr t ++ "`"))

/-- The `for message in messages` loop of `parse_openai_agents_trajectory`
(tips.py lines 34-81), threading the accumulated task instruction, agent
steps and function calls. -/
def parseLoop : List Json → Option String → List AgentStep → List Json →
    Except PyError (Option String × List AgentStep × List Json)
  | [], ti, steps, fcs => .ok (ti, steps, fcs)
  | message :: rest, ti, steps, fcs =>
    match jsonGetE message "role" with
    | .error e => .error e
    | .ok role =>
      match (if role = some (.str "user") ∧ ti = none then
          match jsonItem message "content" with
          | .error e => .error e
          | .ok (.str s) => .ok (some s)
          | .ok _ => .error (.kaizenException "First user message was not a task instruction.")
        else (.ok ti : Except PyError (Option String))) with
      | .error e => .error e
      | .ok ti2 =>
        if role = some (.str "assistant") then
          match jsonGetE message "content" with
          | .error e => .error e
          | .ok contentOpt =>
            match contentOpt.getD (.str "") with
            | .str s =>
              if (pyStrip s).data.isEmpty then parseLoop rest ti2 steps fcs
              else parseLoop rest ti2 (steps ++ [⟨"reasoning", s, message⟩]) fcs
            | .arr l =>
              match processAssistantList l steps fcs with
              | .error e => .error e
              | .ok (steps2, fcs2) => parseLoop rest ti2 steps2 fcs2
            | _ => parseLoop rest ti2 steps fcs
        else parseLoop rest ti2 steps fcs

/-- `content[:2000] + "..."` when over 2000 characters. -/
def truncateContent (s : String) : String :=
  if 2000 < s.data.length then String.mk (s.data.take 2000) ++ "..." else s

/-- One rendered entry of `steps_text` (tips.py lines 84-96). -/
def stepLine (i : Nat) (st : AgentStep) : List String :=
  let content := truncateContent st.content
  if st.stype = "reasoning" then
    ["**Step " ++ pyNatStr i ++ " - Reasoning:**\n" ++ content]
  else if st.stype = "action" then
    ["**Step " ++ pyNatStr i ++ " - Action:**\n" ++ content]
  else if st.stype = "observation" then
    ["**Step " ++ pyNatStr i ++ " - Observation:**\n" ++ content]
  else []

/-- `enumerate(agent_steps[:50], 1)` rendered to `steps_text`. -/
def stepsText (steps : List AgentStep) : List String :=
  (List.enumFrom 1 (steps.take 50)).flatMap (fun p => stepLine p.1 p.2)

/-- `parse_openai_agents_trajectory` of tips.py (lines 19-103); the final
`task_instruction or DEFAULT_TASK_DESCRIPTION` also replaces an *empty*
instruction (Python `or` is truthiness-based). -/
def parse_openai_agents_trajectory (messages : List Json) :
    Except PyError ParsedTrajectory :=
  match parseLoop messages none [] [] with
  | .error e => .error e
  | .ok (ti, steps, fcs) =>
    .ok ⟨(match ti with
          | some s => if s.data.isEmpty then DEFAULT_TASK_DESCRIPTION else s
          | none => DEFAULT_TASK_DESCRIPTION),
         String.intercalate "\n\n" (stepsText steps),
         fcs,
         (steps.filter (fun s => s.stype == "action" || s.stype == "reasoning")).length⟩

/-- `generate_tips` of tips.py (lines 106-162).  `cleanResponse` stands for
the final `clean_response` string: the raw completion content on the
constrained-decoding path, or `clean_llm_response(response)` otherwise —
either way an arbitrary environment-supplied string.  `json.loads` failure
and `model_validate` failure are the two caught exception paths. -/
def tipsFromResponse (cleanResponse : String) : List Tip :=
  if cleanResponse.data.isEmpty then []
  else
    match loads cleanResponse with
    | none => []
    | some v => (tipGenerationResponseValidate v).getD []

def generate_tips (cleanResponse : String) (messages : List Json) :
    Except PyError TipGenerationResult :=
  match parse_openai_agents_trajectory messages with
  | .error e => .error e
  | .ok traj => .ok ⟨tipsFromResponse cleanResponse, traj.task_instruction⟩

theorem parseLoop_no_user :
    ∀ (messages : List Json) (ti0 : Option String) (steps : List AgentStep)
      (fcs : List Json),
      (∀ m ∈ messages, jsonGetE m "role" ≠ .ok (some (.str "user"))) →
      ∀ ti steps2 fcs2, parseLoop messages ti0 steps fcs = .ok (ti, steps2, fcs2) →
        ti = ti0 := by
  intro messages
  induction messages with
  | nil =>
    intro ti0 steps fcs _ ti steps2 fcs2 h
    simp only [parseLoop, Except.ok.injEq, Prod.mk.injEq] at h
    exact h.1.symm
  | cons message rest ih =>
    intro ti0 steps fcs hno ti steps2 fcs2 h
    have hnr : jsonGetE message "role" ≠ .ok (some (.str "user")) :=
      hno message (List.mem_cons_self _ _)
    have hrest : ∀ m ∈ rest, jsonGetE m "role" ≠ .ok (some (.str "user")) :=
      fun m hm => hno m (List.mem_cons_of_mem _ hm)
    rw [parseLoop] at h
    split at h
    · cases h
    · rename_i role hrole
      split at h
      · cases h
      · rename_i ti2 heq
        have hti2 : ti2 = ti0 := by
          have hcond : ¬ (role = some (.str "user") ∧ ti0 = none) := by
            rintro ⟨h1, _⟩
            exact hnr (by rw [hrole, h1])
          rw [if_neg hcond] at heq
          exact (Except.ok.inj heq).symm
        have key : ∀ (st : List AgentStep) (fc : List Json),
            parseLoop rest ti2 st fc = .ok (ti, steps2, fcs2) → ti = ti0 :=
          fun st fc hh => (ih ti2 st fc hrest ti steps2 fcs2 hh).trans hti2
        split at h
        · split at h
          · cases h
          · split at h
            · split at h
              · exact key _ _ h
              · exact key _ _ h
            · split at h
              · cases h
              · exact key _ _ h
            · exact key _ _ h
        · exact key _ _ h

theorem tipsFromResponse_empty (cleanResponse : String)
    (hbad : cleanResponse.data.isEmpty ∨ loads cleanResponse = none ∨
      (∃ v, loads cleanResponse = some v ∧ tipGenerationResponseValidate v = none)) :
    tipsFromResponse cleanResponse = [] := by
  unfold tipsFromResponse
  rcases hbad with he | hl | ⟨v, hv, hval⟩
  · rw [if_pos he]
  · by_cases he : cleanResponse.data.isEmpty
    · rw [if_pos he]
    · rw [if_neg he, hl]
  · by_cases he : cleanResponse.data.isEmpty
    · rw [if_pos he]
    · rw [if_neg he, hv]
      show (tipGenerationResponseValidate v).getD [] = []
      rw [hval]
      rfl

/-- C7: when the trajectory parse succeeds, an empty or malformed LLM
response — empty string, JSON decode failure, or schema validation
failure — does not raise: `generate_tips` returns an empty tip list
together with the parsed task description; and a trajectory containing no
user message yields the sentinel task description
`"Task description unknown"`. -/
theorem C7_tip_generation_failure_handling (messages : List Json)
    (cleanResponse : String) (traj : ParsedTrajectory)
    (hparse : parse_openai_agents_trajectory messages = .ok traj) :
    ((cleanResponse.data.isEmpty ∨ loads cleanResponse = none ∨
        (∃ v, loads cleanResponse = some v ∧ tipGenerationResponseValidate v = none)) →
      generate_tips cleanResponse messages = .ok ⟨[], traj.task_instruction⟩) ∧
    ((∀ m ∈ messages, jsonGetE m "role" ≠ .ok (some (.str "user"))) →
      traj.task_instruction = DEFAULT_TASK_DESCRIPTION) := by
  constructor
  · intro hbad
    unfold generate_tips
    split
    · rename_i e hE
      rw [hparse] at hE
      cases hE
    · rename_i t hT
      rw [hparse] at hT
      obtain rfl : traj = t := Except.ok.inj hT
      rw [tipsFromResponse_empty cleanResponse hbad]
  · intro hnouser
    unfold parse_openai_agents_trajectory at hparse
    split at hparse
    · cases hparse
    · rename_i ti steps fcs hp
      have hti : ti = none := parseLoop_no_user messages none [] [] hnouser ti steps fcs hp
      subst hti
      rw [← Except.ok.inj hparse]

/-- `ConsolidationResult` of `kaizen/schema/tips.py` (lines 27-34). -/
structure ConsolidationResult where
  clusters_found : Nat
  tips_before : Nat
  tips_after : Nat
deriving DecidableEq

/-- The consolidated `Entity` objects built for one cluster
(`kaizen_client.py` lines 125-138); the task description is read from the
first cluster member's metadata, `""` when absent. -/
def newGuidelineEntities (cluster : List RecordedEntity) (tips : List Tip) : List Entity :=
  tips.map (fun tip =>
    ⟨.str tip.content,
     some [("task_description",
            (((cluster.headD default).metadata.getD []).lookup "task_description").getD (.str "")),
           ("rationale", .str tip.rationale),
           ("category", .str tip.category),
           ("trigger", .str tip.trigger)],
     "guideline"⟩)

/-- One Phase-2 iteration (`kaizen_client.py` lines 160-168): delete the
original entity, swallowing any exception. -/
def phase2Step (namespaceId : String) (st : FsStore) (e : RecordedEntity) : FsStore :=
  (FilesystemBackend.delete_entity_by_id st namespaceId e.id).1

/-- The tail of Phase 1 (`kaizen_client.py` lines 145-157): on a failed
insert skip the cluster keeping the backend's resulting store; on success
count the cluster and run Phase 2 over the originals. -/
def phase1Finish (namespaceId : String) (cluster : List RecordedEntity) (tips : List Tip) :
    FsStore × Except PyError (List EntityUpdate) → FsStore × Nat × Nat × Nat
  | (st2, .error _) => (st2, 0, 0, 0)
  | (st2, .ok _) =>
    (cluster.foldl (phase2Step namespaceId) st2, 1, cluster.length, tips.length)

/-- Phase 1 after a successful `combine_cluster`: an empty consolidated tip
list skips the cluster without deleting anything (`kaizen_client.py`
lines 139-144), otherwise insert with conflict resolution disabled. -/
def phase1Insert (namespaceId nowIso : String) (store : FsStore)
    (cluster : List RecordedEntity) (tips : List Tip) : FsStore × Nat × Nat × Nat :=
  if (newGuidelineEntities cluster tips).isEmpty then (store, 0, 0, 0)
  else
    phase1Finish namespaceId cluster tips
      (FilesystemBackend.update_entities store namespaceId
        (newGuidelineEntities cluster tips) false [] nowIso)

/-- One iteration of the `for cluster in clusters` loop of
`consolidate_tips` (`kaizen_client.py` lines 120-168) over the filesystem
backend.  `combineFn` is the external `combine_cluster` LLM call; a raise
from it — or the `IndexError` of `cluster[0]` on an empty cluster — is
caught by the Phase-1 `except` and skips the cluster.  The returned triple
of numbers is the increment to `(clusters_found, tips_before, tips_after)`. -/
def consolidateCluster (combineFn : List RecordedEntity → Except PyError (List Tip))
    (namespaceId nowIso : String) (store : FsStore) (cluster : List RecordedEntity) :
    FsStore × Nat × Nat × Nat :=
  match combineFn cluster, cluster with
  | .error _, _ => (store, 0, 0, 0)
  | .ok _, [] => (store, 0, 0, 0)
  | .ok tips, _ :: _ => phase1Insert namespaceId nowIso store cluster tips

/-- The full loop of `consolidate_tips`, threading the store and the three
counters. -/
def consolidateLoop (combineFn : List RecordedEntity → Except PyError (List Tip))
    (namespaceId nowIso : String) :
    FsStore → Nat → Nat → Nat → List (List RecordedEntity) → FsStore × ConsolidationResult
  | store, cf, tb, ta, [] => (store, ⟨cf, tb, ta⟩)
  | store, cf, tb, ta, cluster :: rest =>
    match consolidateCluster combineFn namespaceId nowIso store cluster with
    | (store2, dcf, dtb, dta) =>
      consolidateLoop combineFn namespaceId nowIso store2 (cf + dcf) (tb + dtb) (ta + dta) rest

/-- `KaizenClient.cluster_tips` (lines 78-101) over the filesystem backend:
fetch up to 10000 `guideline` entities and cluster them. -/
def cluster_tips (encodeFn : Json → List ℚ) (threshold : ℚ) (store : FsStore)
    (namespaceId : String) : Except PyError (List (List RecordedEntity)) :=
  match FilesystemBackend.search_entities store namespaceId none
      [("type", .str "guideline")] 10000 with
  | .error e => .error e
  | .ok entities => .ok (cluster_entities encodeFn threshold entities)

/-- `KaizenClient.consolidate_tips` (lines 103-174) over the filesystem
backend. -/
def consolidate_tips (combineFn : List RecordedEntity → Except PyError (List Tip))
    (encodeFn : Json → List ℚ) (threshold : ℚ) (store : FsStore)
    (namespaceId nowIso : String) : FsStore × Except PyError ConsolidationResult :=
  match cluster_tips encodeFn threshold store namespaceId with
  | .error e => (store, .error e)
  | .ok clusters =>
    match consolidateLoop combineFn namespaceId nowIso store 0 0 0 clusters with
    | (store2, res) => (store2, .ok res)

theorem update_store_or_ok (store : FsStore) (namespaceId : String) (entities : List Entity)
    (ecr : Bool) (resolverUpdates : List EntityUpdate) (nowIso : String) :
    (FilesystemBackend.update_entities store namespaceId entities ecr
      resolverUpdates nowIso).1 = store ∨
    ∃ us, (FilesystemBackend.update_entities store namespaceId entities ecr
      resolverUpdates nowIso).2 = .ok us := by
  unfold FilesystemBackend.update_entities
  split
  · exact Or.inl rfl
  · rename_i e0 rest
    dsimp only
    by_cases hcond : ¬ ((e0 :: rest).all fun e => decide (e.type = e0.type)) = true
    · rw [if_pos hcond]
      exact Or.inl rfl
    · rw [if_neg hcond]
      by_cases hcond2 : ¬ ((e0 :: rest).all fun e => strFieldAccepts e.content) = true
      · rw [if_pos hcond2]
        exact Or.inl rfl
      · rw [if_neg hcond2]
        cases hl : FilesystemBackend.loadNamespace store namespaceId with
        | error e => exact Or.inl rfl
        | ok d => exact Or.inr ⟨_, rfl⟩

theorem update_err_store (store : FsStore) (namespaceId : String) (entities : List Entity)
    (ecr : Bool) (resolverUpdates : List EntityUpdate) (nowIso : String) (err : PyError)
    (h : (FilesystemBackend.update_entities store namespaceId entities ecr
        resolverUpdates nowIso).2 = .error err) :
    (FilesystemBackend.update_entities store namespaceId entities ecr
      resolverUpdates nowIso).1 = store := by
  rcases update_store_or_ok store namespaceId entities ecr resolverUpdates nowIso with
    h1 | ⟨us, h2⟩
  · exact h1
  · exact Except.noConfusion (h2.symm.trans h)

theorem delete_store_or_ok (store : FsStore) (namespaceId entityId : String) :
    (FilesystemBackend.delete_entity_by_id store namespaceId entityId).1 = store ∨
    (FilesystemBackend.delete_entity_by_id store namespaceId entityId).2 = .ok () := by
  unfold FilesystemBackend.delete_entity_by_id
  split
  · exact Or.inl rfl
  · rename_i d hl
    dsimp only
    by_cases hf : (List.filter (fun e => decide (e.id ≠ entityId)) d.entities).length =
      d.entities.length
    · rw [if_pos hf]
      exact Or.inl rfl
    · rw [if_neg hf]
      exact Or.inr rfl

theorem delete_err_store (store : FsStore) (namespaceId entityId : String) (err : PyError)
    (h : (FilesystemBackend.delete_entity_by_id store namespaceId entityId).2 = .error err) :
    (FilesystemBackend.delete_entity_by_id store namespaceId entityId).1 = store := by
  rcases delete_store_or_ok store namespaceId entityId with h1 | h2
  · exact h1
  · exact Except.noConfusion (h2.symm.trans h)

/-- C6: for a cluster whose LLM consolidation returns zero tips, the store
is untouched — nothing deleted, nothing inserted — and the cluster is not
counted; a Phase-1 failure (LLM raise or failed insert) likewise skips the
cluster with the store unchanged; after a successful Phase-1 insert the
result is exactly the post-insert store with only the per-entity deletes of
Phase 2 applied (a later failure does not roll the insert back), and a
failing Phase-2 delete leaves the store of that step unchanged. -/
theorem C6_zero_tip_cluster_not_deleted
    (combineFn : List RecordedEntity → Except PyError (List Tip))
    (namespaceId nowIso : String) (store : FsStore) (cluster : List RecordedEntity) :
    (combineFn cluster = .ok [] →
      consolidateCluster combineFn namespaceId nowIso store cluster = (store, 0, 0, 0)) ∧
    (∀ err, combineFn cluster = .error err →
      consolidateCluster combineFn namespaceId nowIso store cluster = (store, 0, 0, 0)) ∧
    (∀ tips err, combineFn cluster = .ok tips →
      (FilesystemBackend.update_entities store namespaceId
          (newGuidelineEntities cluster tips) false [] nowIso).2 = .error err →
      consolidateCluster combineFn namespaceId nowIso store cluster = (store, 0, 0, 0)) ∧
    (∀ tips st2 ups, combineFn cluster = .ok tips → cluster ≠ [] →
      (newGuidelineEntities cluster tips).isEmpty = false →
      FilesystemBackend.update_entities store namespaceId
          (newGuidelineEntities cluster tips) false [] nowIso = (st2, .ok ups) →
      consolidateCluster combineFn namespaceId nowIso store cluster =
        (cluster.foldl (phase2Step namespaceId) st2, 1, cluster.length, tips.length)) ∧
    (∀ (st : FsStore) (ent : RecordedEntity) (err : PyError),
      (FilesystemBackend.delete_entity_by_id st namespaceId ent.id).2 = .error err →
      phase2Step namespaceId st ent = st) := by
  refine ⟨?_, ?_, ?_, ?_, ?_⟩
  · intro hc
    cases cluster with
    | nil =>
      unfold consolidateCluster
      rw [hc]
    | cons a t =>
      unfold consolidateCluster
      rw [hc]
      rfl
  · intro err hc
    unfold consolidateCluster
    rw [hc]
  · intro tips err hc hup
    have hst := update_err_store store namespaceId (newGuidelineEntities cluster tips)
      false [] nowIso err hup
    cases cluster with
    | nil =>
      unfold consolidateCluster
      rw [hc]
    | cons a t =>
      unfold consolidateCluster
      rw [hc]
      show phase1Insert namespaceId nowIso store (a :: t) tips = (store, 0, 0, 0)
      unfold phase1Insert
      by_cases hni : (newGuidelineEntities (a :: t) tips).isEmpty
      · rw [if_pos hni]
      · rw [if_neg hni]
        have hpair : FilesystemBackend.update_entities store namespaceId
            (newGuidelineEntities (a :: t) tips) false [] nowIso = (store, .error err) := by
          have h1 := hst
          have h2 := hup
          exact Prod.ext h1 h2
        rw [hpair]
        rfl
  · intro tips st2 ups hc hne hni hupd
    cases cluster with
    | nil => exact absurd rfl hne
    | cons a t =>
      unfold consolidateCluster
      rw [hc]
      show phase1Insert namespaceId nowIso store (a :: t) tips =
        ((a :: t).foldl (phase2Step namespaceId) st2, 1, (a :: t).length, tips.length)
      unfold phase1Insert
      rw [if_neg (by rw [hni]; exact Bool.false_ne_true), hupd]
      rfl
  · intro st ent err h
    unfold phase2Step
    exact delete_err_store st namespaceId ent.id err h

/-- Concrete stored entity of the C6 witness. -/
def c6ent : RecordedEntity := ⟨"1", "guideline", .str "g", "t0", some []⟩

theorem C6_zero_tip_cluster_not_deleted_witness :
    consolidateCluster (fun _ => .ok []) "demo" "t1" [] [c6ent] = ([], 0, 0, 0) ∧
    consolidateCluster (fun _ => .error (.kaizenException "LLM failure")) "demo" "t1" []
      [c6ent] = ([], 0, 0, 0) ∧
    phase2Step "demo" [] c6ent = [] :=
  ⟨(C6_zero_tip_cluster_not_deleted (fun _ => .ok []) "demo" "t1" [] [c6ent]).1 rfl,
   (C6_zero_tip_cluster_not_deleted (fun _ => .error (.kaizenException "LLM failure"))
      "demo" "t1" [] [c6ent]).2.1 (.kaizenException "LLM failure") rfl,
   (C6_zero_tip_cluster_not_deleted (fun _ => .ok []) "demo" "t1" [] [c6ent]).2.2.2.2
      [] c6ent (.namespaceNotFound "Namespace `demo` not found") (by decide)⟩

theorem C7_tip_generation_failure_handling_witness :
    generate_tips "" [] =
      .ok ⟨[], (⟨DEFAULT_TASK_DESCRIPTION, "", [], 0⟩ : ParsedTrajectory).task_instruction⟩ ∧
    (⟨DEFAULT_TASK_DESCRIPTION, "", [], 0⟩ : ParsedTrajectory).task_instruction =
      DEFAULT_TASK_DESCRIPTION :=
  ⟨(C7_tip_generation_failure_handling [] "" ⟨DEFAULT_TASK_DESCRIPTION, "", [], 0⟩
        (by decide)).1 (Or.inl rfl),
   (C7_tip_generation_failure_handling [] "" ⟨DEFAULT_TASK_DESCRIPTION, "", [], 0⟩
        (by decide)).2 (by intro m hm; cases hm)⟩

/-! ## Phoenix sync (`kaizen/sync/phoenix_sync.py`)

The sync pipeline over the filesystem backend.  The Phoenix HTTP fetch is
an environment input (`spans`), as are the tip-generation LLM response
(`cleanResponse`, see `generate_tips`) and `ast.literal_eval`
(`literalEval`). -/

/-- `SyncResult` of `phoenix_sync.py` (lines 28-35). -/
structure SyncResult where
  processed : Nat
  skipped : Nat
  tips_generated : Nat
  errors : List String
deriving DecidableEq

/-- The message carried by a raised exception, as `str(e)` renders it. -/
def pyErrMsg : PyError → String
  | .kaizenException m => m
  | .namespaceNotFound m => m
  | .namespaceAlreadyExists m => m
  | .indexError m => m
  | .keyError k => k
  | .valueError m => m
  | .typeError m => m
  | .attributeError m => m
  | .validationError m => m

/-- `_ensure_namespace` (lines 52-58): create the namespace when the
details lookup raises `NamespaceNotFoundException`. -/
def ensureNamespace (store : FsStore) (namespaceId nowIso : String) : FsStore :=
  if (store.lookup namespaceId).isSome then store
  else (FilesystemBackend.create_namespace store namespaceId nowIso).1

/-- `_get_processed_span_ids` (lines 85-99): the `span_id` metadata values
of stored `trajectory` entities with truthy metadata and truthy `span_id`
(a Python `set`, modelled as the value list).  Only
`NamespaceNotFoundException` is caught; any other raise from the search
(e.g. the read-side `ValidationError`) propagates. -/
def getProcessedSpanIds (store : FsStore) (namespaceId : String) :
    Except PyError (List Json) :=
  match FilesystemBackend.search_entities store namespaceId none
      [("type", .str "trajectory")] 10000 with
  | .error (.namespaceNotFound _) => .ok []
  | .error e => .error e
  | .ok entities =>
    .ok ((entities.filter (fun e =>
      (match e.metadata with
       | some md => ¬ md.isEmpty
       | none => false) &&
      pyTruthy (((e.metadata.getD []).lookup "span_id").getD .null))).map
      (fun e => ((e.metadata.getD []).lookup "span_id").getD .null))

/-- `_parse_content` (lines 101-113): `json.loads`, then
`ast.literal_eval` (environment), then the raw string. -/
def parseContent (literalEval : String → Option Json) (content : Json) : Json :=
  match content with
  | .str s =>
    (match loads s with
     | some v => v
     | none =>
       match literalEval s with
       | some v => v
       | none => .str s)
  | v => v

/-- `span.get("attributes", \x7b\x7d)` as a field list; a non-object value
is taken as the empty dict (over such a value the `startswith` scans of the
code match nothing). -/
def spanAttrs (span : Json) : List (String × Json) :=
  match dictGet span "attributes" with
  | some (.obj fields) => fields
  | _ => []

/-- Split a character list on a separator (Python `str.split`). -/
def splitOnChar (sep : Char) : List Char → List (List Char)
  | [] => [[]]
  | c :: rest =>
    match splitOnChar sep rest with
    | [] => if c = sep then [[], []] else [[c]]
    | h :: t => if c = sep then [] :: h :: t else (c :: h) :: t

/-- Insertion into a sorted list. -/
def insertSorted (x : Int) : List Int → List Int
  | [] => [x]
  | y :: rest => if x ≤ y then x :: y :: rest else y :: insertSorted x rest

/-- `sorted` on the collected index set. -/
def sortInts : List Int → List Int
  | [] => []
  | x :: rest => insertSorted x (sortInts rest)

/-- The index-collection loop of `_extract_messages_from_span` (lines
121-125 / 141-145): for keys `pre + i + ".role"`, parse `key.split(".")[2]`
as an `int` (whose failure raises). -/
def collectIndices (pre : String) : List (String × Json) → Except PyError (List Int)
  | [] => .ok []
  | (k, _) :: rest =>
    if pre.data.isPrefixOf k.data ∧ ".role".data.isSuffixOf k.data then
      match (splitOnChar '.' k.data).drop 2 with
      | [] => .error (.indexError "list index out of range")
      | p :: _ =>
        match pyIntOfStr (String.mk p) with
        | none =>
          .error (.valueError ("invalid literal for int() with base 10: " ++ String.mk p))
        | some n =>
          match collectIndices pre rest with
          | .error e => .error e
          | .ok ns => .ok (n :: ns)
    else collectIndices pre rest

/-- One message-building pass of `_extract_messages_from_span` (lines
127-138 / 147-158). -/
def buildMessages (literalEval : String → Option Json) (pre ty : String)
    (attrs : List (String × Json)) (idxs : List Int) : List Json :=
  idxs.flatMap (fun i =>
    match attrs.lookup (pre ++ pyIntStr i ++ ".role"),
        attrs.lookup (pre ++ pyIntStr i ++ ".content") with
    | some r, some c =>
      if pyTruthy r ∧ c ≠ .null then
        [.obj [("index", .num i), ("type", .str ty), ("role", r),
               ("content", parseContent literalEval c)]]
      else []
    | _, _ => [])

/-- `_extract_messages_from_span` (lines 115-160). -/
def extractMessagesFromSpan (literalEval : String → Option Json) (span : Json) :
    Except PyError (List Json) :=
  match collectIndices "gen_ai.prompt." (spanAttrs span) with
  | .error e => .error e
  | .ok pIdxs =>
    match collectIndices "gen_ai.completion." (spanAttrs span) with
    | .error e => .error e
    | .ok cIdxs =>
      .ok (buildMessages literalEval "gen_ai.prompt." "prompt" (spanAttrs span)
            (sortInts pIdxs.dedup) ++
          buildMessages literalEval "gen_ai.completion." "completion" (spanAttrs span)
            (sortInts cIdxs.dedup))

/-- The block-scanning accumulator of `_convert_to_openai_format`. -/
structure ConvAcc where
  text_parts : List String
  tool_calls : List Json
  tool_results : List Json
  thinking_parts : List String
deriving DecidableEq

/-- One content block (lines 175-211).  Non-string `text`/`thinking`
values pass through `pyFStr`, standing for Python's `str` coercion on
join. -/
def convBlock (acc : ConvAcc) (block : Json) : ConvAcc :=
  match block with
  | .obj fields =>
    match fields.lookup "type" with
    | some (.str "text") =>
      let text := (fields.lookup "text").getD (.str "")
      if pyTruthy text ∧ text ≠ .str "(no content)" then
        { acc with text_parts := acc.text_parts ++ [pyFStr text] }
      else acc
    | some (.str "thinking") =>
      let thinking := (fields.lookup "thinking").getD (.str "")
      if pyTruthy thinking then
        { acc with thinking_parts := acc.thinking_parts ++ [pyFStr thinking] }
      else acc
    | some (.str "tool_use") =>
      { acc with tool_calls := acc.tool_calls ++
        [.obj [("id", (fields.lookup "id").getD (.str "")),
               ("type", .str "function"),
               ("function", .obj
                 [("name", (fields.lookup "name").getD (.str "")),
                  ("arguments", .str (dumps ((fields.lookup "input").getD (.obj []))))])]] }
    | some (.str "tool_result") =>
      { acc with tool_results := acc.tool_results ++
        [.obj [("tool_call_id", (fields.lookup "tool_use_id").getD (.str "")),
               ("content", (fields.lookup "content").getD (.str "")),
               ("is_error", (fields.lookup "is_error").getD (.bool false))]] }
    | _ => acc
  | b => { acc with text_parts := acc.text_parts ++ [pyFStr b] }

/-- `_convert_to_openai_format` (lines 162-230).  `role` is the raw JSON
attribute value; `str(content)` for non-string non-list content passes
through `pyFStr`. -/
def convertToOpenaiFormat (content role : Json) : Json :=
  match content with
  | .str s => .obj [("role", role), ("content", .str s)]
  | .arr blocks =>
    let acc := blocks.foldl convBlock ⟨[], [], [], []⟩
    if role = .str "assistant" then
      .obj ([("role", .str "assistant")] ++
        (if acc.thinking_parts.isEmpty then []
         else [("thinking", .str (String.intercalate "\n\n" acc.thinking_parts))]) ++
        (if ¬ acc.text_parts.isEmpty then
          [("content", .str (String.intercalate "\n\n" acc.text_parts))]
         else if acc.tool_calls.isEmpty then [("content", .null)]
         else []) ++
        (if acc.tool_calls.isEmpty then [] else [("tool_calls", .arr acc.tool_calls)]))
    else if role = .str "user" ∧ ¬ acc.tool_results.isEmpty then
      .obj [("role", .str "tool"), ("tool_results", .arr acc.tool_results)]
    else
      .obj [("role", role),
            ("content", .str (if acc.text_parts.isEmpty then ""
              else String.intercalate "\n\n" acc.text_parts))]
  | v => .obj [("role", role), ("content", .str (pyFStr v))]

/-- The trajectory dict of `_extract_trajectory` (lines 256-267). -/
structure Trajectory where
  trace_id : Json
  span_id : Json
  model : Json
  timestamp : Json
  messages : List Json
  usage : Json
deriving DecidableEq

/-- The per-message flattening of `_extract_trajectory` (lines 239-254):
tool messages fan out one entry per tool result. -/
def toOpenaiMessages (messages : List Json) : List Json :=
  messages.flatMap (fun msg =>
    let converted := convertToOpenaiFormat ((dictGet msg "content").getD .null)
      ((dictGet msg "role").getD .null)
    if (dictGet converted "role").getD .null = .str "tool" ∧
        (dictGet converted "tool_results").isSome then
      match (dictGet converted "tool_results").getD .null with
      | .arr results => results.map (fun r =>
          .obj [("role", .str "tool"),
                ("tool_call_id", (dictGet r "tool_call_id").getD .null),
                ("content", (dictGet r "content").getD .null)])
      | _ => [converted]
    else [converted])

/-- `_extract_trajectory` (lines 232-267); `span["context"]["trace_id"]`
and `["span_id"]` are strict subscripts and can raise. -/
def extractTrajectory (literalEval : String → Option Json) (span : Json) :
    Except PyError Trajectory :=
  match extractMessagesFromSpan literalEval span with
  | .error e => .error e
  | .ok messages =>
    match jsonItem span "context" with
    | .error e => .error e
    | .ok ctx =>
      match jsonItem ctx "trace_id" with
      | .error e => .error e
      | .ok traceId =>
        match jsonItem ctx "span_id" with
        | .error e => .error e
        | .ok spanId =>
          .ok ⟨traceId, spanId,
            ((spanAttrs span).lookup "gen_ai.request.model").getD (.str "unknown"),
            (dictGet span "start_time").getD .null,
            toOpenaiMessages messages,
            .obj [("prompt_tokens",
                    ((spanAttrs span).lookup "gen_ai.usage.prompt_tokens").getD .null),
                  ("completion_tokens",
                    ((spanAttrs span).lookup "gen_ai.usage.completion_tokens").getD .null),
                  ("total_tokens",
                    ((spanAttrs span).lookup "llm.usage.total_tokens").getD .null)]⟩

/-- Remove every non-greedy `<system-reminder>…</system-reminder>` match
(the `re.sub` of `_clean_trajectory`), with fuel for termination. -/
def stripSRAux (openTag closeTag : List Char) : Nat → List Char → List Char
  | 0, cs => cs
  | fuel + 1, cs =>
    match splitFirst openTag cs with
    | none => cs
    | some (before, afterOpen) =>
      match splitFirst closeTag afterOpen with
      | none => cs
      | some (_, afterClose) => before ++ stripSRAux openTag closeTag fuel afterClose

/-- The content cleanup of `_clean_trajectory`: drop system reminders,
then `strip()`. -/
def stripSystemReminders (s : String) : String :=
  pyStrip (String.mk
    (stripSRAux "<system-reminder>".data "</system-reminder>".data s.data.length s.data))

/-- `\x7b**msg, "content": c\x7d`: replace the key in place (appending when
absent). -/
def dictSet (msg : Json) (k : String) (v : Json) : Json :=
  match msg with
  | .obj fields =>
    if (fields.lookup k).isSome then
      .obj (fields.map (fun p => if p.1 = k then (k, v) else p))
    else .obj (fields ++ [(k, v)])
  | other => other

/-- `_clean_trajectory` (lines 269-294). -/
def cleanTrajectory (t : Trajectory) : Trajectory :=
  { t with messages := t.messages.flatMap (fun msg =>
      let contentV := (dictGet msg "content").getD .null
      if ¬ pyTruthy contentV ∧ ¬ pyTruthy ((dictGet msg "tool_calls").getD .null) then []
      else if pyTruthy contentV then
        match contentV with
        | .str s =>
          let c2 := stripSystemReminders s
          if c2 = "" then [] else [dictSet msg "content" (.str c2)]
        | _ => [msg]
      else [msg]) }

/-- `_process_trajectory` (lines 296-346) over the filesystem backend.  The
trajectory entity is built with `content=messages` — a *list* — which the
`Entity` pydantic model (`content: str`) rejects; and on the no-store path
`generate_tips` returns a `TipGenerationResult` dataclass, so the
`for tip in tips` iteration raises `TypeError`. -/
def processTrajectory (cleanResponse : String) (store : FsStore)
    (namespaceId nowIso : String) (t : Trajectory) : FsStore × Except PyError Nat :=
  match t.messages with
  | [] =>
    (match generate_tips cleanResponse t.messages with
     | .error e => (store, .error e)
     | .ok _ => (store, .error (.typeError "argument of type TipGenerationResult is not iterable")))
  | _ :: _ =>
    match Entity.validate (.arr t.messages)
        (some [("trace_id", t.trace_id), ("span_id", t.span_id), ("model", t.model),
               ("timestamp", t.timestamp), ("message_count", .num t.messages.length),
               ("usage", t.usage)]) "trajectory" with
    | .error e => (store, .error e)
    | .ok entity =>
      match FilesystemBackend.update_entities store namespaceId [entity] false [] nowIso with
      | (store2, .error e) => (store2, .error e)
      | (store2, .ok _) =>
        match generate_tips cleanResponse t.messages with
        | .error e => (store2, .error e)
        | .ok _ =>
          (store2, .error (.typeError "argument of type TipGenerationResult is not iterable"))

/-- The `for span in spans` loop of `sync` (lines 382-417), threading the
store, the three counters and the error list.  The strict `.get` chain on
`span` and its `context` can raise outside the `try`, aborting the sync. -/
def syncLoop (cleanResponse : String) (literalEval : String → Option Json)
    (namespaceId nowIso : String) (includeErrors : Bool) (processedIds : List Json) :
    FsStore → Nat → Nat → Nat → List String → List Json →
    FsStore × Except PyError SyncResult
  | store, processed, skipped, tipsg, errs, [] =>
    (store, .ok ⟨processed, skipped, tipsg, errs⟩)
  | store, processed, skipped, tipsg, errs, span :: rest =>
    match jsonGetE span "name" with
    | .error e => (store, .error e)
    | .ok nameV =>
      if nameV.getD .null ≠ .str "litellm_request" then
        syncLoop cleanResponse literalEval namespaceId nowIso includeErrors processedIds
          store processed skipped tipsg errs rest
      else if ¬ includeErrors ∧ (dictGet span "status_code").getD .null = .str "ERROR" then
        syncLoop cleanResponse literalEval namespaceId nowIso includeErrors processedIds
          store processed skipped tipsg errs rest
      else
        match jsonGetE ((dictGet span "context").getD (.obj [])) "span_id" with
        | .error e => (store, .error e)
        | .ok spanIdOpt =>
          if spanIdOpt.getD .null ∈ processedIds then
            syncLoop cleanResponse literalEval namespaceId nowIso includeErrors processedIds
              store processed (skipped + 1) tipsg errs rest
          else if ¬ (spanAttrs span).any
              (fun kv => "gen_ai.prompt.".data.isPrefixOf kv.1.data) then
            syncLoop cleanResponse literalEval namespaceId nowIso includeErrors processedIds
              store processed skipped tipsg errs rest
          else
            match extractTrajectory literalEval span with
            | .error e =>
              syncLoop cleanResponse literalEval namespaceId nowIso includeErrors processedIds
                store processed skipped tipsg
                (errs ++ ["Error processing span " ++ pyFStr (spanIdOpt.getD .null) ++ ": " ++
                  pyErrMsg e])
                rest
            | .ok traj0 =>
              match (cleanTrajectory traj0).messages with
              | [] =>
                syncLoop cleanResponse literalEval namespaceId nowIso includeErrors
                  processedIds store processed skipped tipsg errs rest
              | _ :: _ =>
                match processTrajectory cleanResponse store namespaceId nowIso
                    (cleanTrajectory traj0) with
                | (store2, .error e) =>
                  syncLoop cleanResponse literalEval namespaceId nowIso includeErrors
                    processedIds store2 processed skipped tipsg
                    (errs ++ ["Error processing span " ++ pyFStr (spanIdOpt.getD .null) ++
                      ": " ++ pyErrMsg e])
                    rest
                | (store2, .ok k) =>
                  syncLoop cleanResponse literalEval namespaceId nowIso includeErrors
                    processedIds store2 (processed + 1) skipped (tipsg + k) errs rest

/-- `PhoenixSync.sync` (lines 348-431) over the filesystem backend; the
fetched `spans` are the environment's Phoenix response. -/
def sync (cleanResponse : String) (literalEval : String → Option Json) (store : FsStore)
    (namespaceId nowIso : String) (spans : List Json) (includeErrors : Bool) :
    FsStore × Except PyError SyncResult :=
  match getProcessedSpanIds (ensureNamespace store namespaceId nowIso) namespaceId with
  | .error e => (ensureNamespace store namespaceId nowIso, .error e)
  | .ok processedIds =>
    syncLoop cleanResponse literalEval namespaceId nowIso includeErrors processedIds
      (ensureNamespace store namespaceId nowIso) 0 0 0 [] spans

theorem processTrajectory_never_ok (cleanResponse : String) (store : FsStore)
    (namespaceId nowIso : String) (t : Trajectory) :
    ∃ e store2, processTrajectory cleanResponse store namespaceId nowIso t =
      (store2, .error e) := by
  unfold processTrajectory
  split
  · split
    · exact ⟨_, _, rfl⟩
    · exact ⟨_, _, rfl⟩
  · split
    · exact ⟨_, _, rfl⟩
    · rename_i entity hval
      exact absurd hval (by simp [Entity.validate, strFieldAccepts])

theorem syncLoop_no_processed (cleanResponse : String) (literalEval : String → Option Json)
    (namespaceId nowIso : String) (includeErrors : Bool) (processedIds : List Json) :
    ∀ (spans : List Json) (store : FsStore) (processed skipped tipsg : Nat)
      (errs : List String) (res : SyncResult),
      (syncLoop cleanResponse literalEval namespaceId nowIso includeErrors processedIds
        store processed skipped tipsg errs spans).2 = .ok res →
      res.processed = processed ∧ res.tips_generated = tipsg := by
  intro spans
  induction spans with
  | nil =>
    intro store processed skipped tipsg errs res h
    obtain rfl : (⟨processed, skipped, tipsg, errs⟩ : SyncResult) = res := Except.ok.inj h
    exact ⟨rfl, rfl⟩
  | cons span rest ih =>
    intro store processed skipped tipsg errs res h
    rw [syncLoop] at h
    split at h
    · exact Except.noConfusion h
    · split at h
      · exact ih _ _ _ _ _ _ h
      · split at h
        · exact ih _ _ _ _ _ _ h
        · split at h
          · exact Except.noConfusion h
          · split at h
            · exact ih _ _ _ _ _ _ h
            · split at h
              · exact ih _ _ _ _ _ _ h
              · split at h
                · exact ih _ _ _ _ _ _ h
                · rename_i traj0 hext
                  split at h
                  · exact ih _ _ _ _ _ _ h
                  · split at h
                    · exact ih _ _ _ _ _ _ h
                    · rename_i store2 k hpk
                      obtain ⟨e, s2, hpe⟩ := processTrajectory_never_ok cleanResponse store
                        namespaceId nowIso (cleanTrajectory traj0)
                      rw [hpe] at hpk
                      simp at hpk

/-- C4 (observed behaviour): a `sync` that returns normally always reports
`processed = 0` and `tips_generated = 0`, whatever the fetched spans and
the stored state — contradicting the claim that a first sync over `n` new
LLM spans reports `processed = n` (and that a repeat reports
`skipped = n`).  The cause: `_process_trajectory` builds the trajectory
entity with `content=messages`, a list, which the `Entity` model
(`content: str`) rejects with a `ValidationError`, so every span with
messages lands in `errors` and nothing is ever persisted or counted. -/
theorem C4_sync_never_reports_processed (cleanResponse : String)
    (literalEval : String → Option Json) (store : FsStore) (namespaceId nowIso : String)
    (spans : List Json) (includeErrors : Bool) (res : SyncResult)
    (h : (sync cleanResponse literalEval store namespaceId nowIso spans includeErrors).2 =
      .ok res) :
    res.processed = 0 ∧ res.tips_generated = 0 := by
  unfold sync at h
  split at h
  · exact Except.noConfusion h
  · rename_i processedIds hpids
    exact syncLoop_no_processed cleanResponse literalEval namespaceId nowIso includeErrors
      processedIds spans (ensureNamespace store namespaceId nowIso) 0 0 0 [] res h

theorem C4_sync_never_reports_processed_witness :
    (sync "" (fun _ => none) [] "demo" "t0" [] false).2 =
      .ok (⟨0, 0, 0, []⟩ : SyncResult) ∧
    ((⟨0, 0, 0, []⟩ : SyncResult).processed = 0 ∧
      (⟨0, 0, 0, []⟩ : SyncResult).tips_generated = 0) :=
  ⟨rfl, C4_sync_never_reports_processed "" (fun _ => none) [] "demo" "t0" [] false
    ⟨0, 0, 0, []⟩ rfl⟩

end Kaizen
